import Mathlib

/-!
# kubeserver: priority queue, worker pool and job informer

A shallow embedding of `packages/queue/priotity.go`, `packages/worker/manager.go`
and `packages/models/models.go`, followed by theorems about the embedded code.

Conventions of the embedding

* Go `int` values that are only compared (priorities, success/failure counts)
  are `Int`; slice indices are `Nat`.
* `time.Now()` and `uuid.NewString()` read the environment; their results are
  passed to the embedded functions as explicit arguments.
* A mutex-protected critical section is one atomic function on the protected
  state.  Logging is omitted.
* `[]*JobItem` is a `List JobItem`; an in-place update of the element at an index
  is `List.set`.
* `map[string]models.JobInfo` is an association list; the order in which a Go
  `range` visits the map is an explicit argument.
-/

namespace Kubeserver

/-! ## packages/models -/

/-- Stand-in for `corev1.PodTemplateSpec`, a payload the program only copies. -/
abbrev PodTemplateSpec := String

/-- Stand-in for the `batchv1.Job` payload of a submission, never inspected. -/
abbrev JobPayload := String

/-- Abstract `time.Time`. -/
abbrev Time := Nat

/-- Go `models.JobSpec`. -/
structure JobSpec where
  Name : String
  Priority : Int
  Job : JobPayload
  Template : PodTemplateSpec
deriving DecidableEq

/-- Go `models.JobStatus`: the four declared constants, and `zero` for the empty string,
the zero value of the type. -/
inductive JobStatus where
  | Pending
  | Running
  | Completed
  | Failed
  | zero
deriving DecidableEq

/-- Go `models.JobInfo`; `StartedAt` and `FinishedAt` are nullable pointers. -/
structure JobInfo where
  ID : String
  Name : String
  Priority : Int
  Status : JobStatus
  CreatedAt : Time
  StartedAt : Option Time
  FinishedAt : Option Time
  ErrorMsg : String
deriving DecidableEq

/-- The Go zero value of `models.JobInfo`, which a map read of a missing key yields. -/
def JobInfo.zeroValue : JobInfo :=
  { ID := "", Name := "", Priority := 0, Status := JobStatus.zero, CreatedAt := 0,
    StartedAt := none, FinishedAt := none, ErrorMsg := "" }

/-! ## packages/queue -/

/-- Go `queue.JobItem`. -/
structure JobItem where
  ID : String
  Spec : JobSpec
  Inserted : Time
  Index : Nat
deriving DecidableEq

/-- Go `queue.PriorityQueue`: the protected fields `items` and `closed`. -/
structure PriorityQueue where
  items : List JobItem
  closed : Bool
deriving DecidableEq

/-- What identifies a queue entry: everything but the heap position marker `Index`,
which `Swap` rewrites. -/
def JobItem.entry (it : JobItem) : String × JobSpec × Time :=
  (it.ID, it.Spec, it.Inserted)

/-- Priority of the element at index `i` (`pq.items[i].Spec.Priority`).  The heap
routines below only pass indices inside the slice; outside it the value is `0`. -/
def prioAt (items : List JobItem) (i : Nat) : Int :=
  match items[i]? with
  | some it => it.Spec.Priority
  | none => 0

/-- Go `PriorityQueue.Len`. -/
def Len (items : List JobItem) : Nat := items.length

/-- Go `PriorityQueue.Less`: a strictly greater priority sorts first. -/
def Less (items : List JobItem) (i j : Nat) : Bool :=
  decide (prioAt items i > prioAt items j)

/-- Go `PriorityQueue.Swap`: exchanges the two elements and writes the new positions
into their `Index` fields.  The heap routines below only pass indices inside the
slice; outside it the slice is left as it is. -/
def Swap (items : List JobItem) (i j : Nat) : List JobItem :=
  match items[i]?, items[j]? with
  | some a, some b => (items.set i { b with Index := i }).set j { a with Index := j }
  | _, _ => items

/-- Go `PriorityQueue.Push`: appends. -/
def Push (items : List JobItem) (x : JobItem) : List JobItem := items ++ [x]

/-- Go `PriorityQueue.Pop`: removes and returns the last element; `none` is the
index-out-of-range panic of `pq.items[n-1]` on an empty slice. -/
def Pop (items : List JobItem) : Option (JobItem × List JobItem) :=
  match items.getLast? with
  | some itm => some (itm, items.dropLast)
  | none => none

/-! ### container/heap (Go standard library), as called by the queue -/

/-- The loop of `heap.up`; `fuel` bounds the number of iterations.  At `j = 0` the Go
expression `(j - 1) / 2` is `0`, since integer division truncates toward zero; the
natural-number expression gives the same. -/
def upLoop : Nat → List JobItem → Nat → List JobItem
  | 0, items, _ => items
  | fuel + 1, items, j =>
    let i := (j - 1) / 2
    if i == j || !Less items j i then items
    else upLoop fuel (Swap items i j) i

/-- Go `heap.up(h, j)`.  The index strictly decreases, so `j + 1` iterations suffice. -/
def up (items : List JobItem) (j : Nat) : List JobItem := upLoop (j + 1) items j

/-- The loop of `heap.down`; `fuel` bounds the number of iterations.  The guard
`j1 < 0` of the Go loop catches an overflow of `int` and has no counterpart on natural
numbers. -/
def downLoop : Nat → List JobItem → Nat → Nat → List JobItem
  | 0, items, _, _ => items
  | fuel + 1, items, i, n =>
    let j1 := 2 * i + 1
    if j1 ≥ n then items
    else
      let j := if j1 + 1 < n && Less items (j1 + 1) j1 then j1 + 1 else j1
      if !Less items j i then items
      else downLoop fuel (Swap items i j) j n

/-- Go `heap.down(h, i0, n)`.  The index strictly increases and stays below `n`, so
`n` iterations suffice.  The boolean result of the Go function is dropped: only
`heap.Fix` and `heap.Remove` read it, and the program calls neither. -/
def down (items : List JobItem) (i0 n : Nat) : List JobItem := downLoop n items i0 n

/-- Go `heap.Push(h, x)`: `h.Push(x); up(h, h.Len()-1)`. -/
def heapPush (items : List JobItem) (x : JobItem) : List JobItem :=
  let items1 := Push items x
  up items1 (Len items1 - 1)

/-- Go `heap.Pop(h)`: `n := h.Len()-1; h.Swap(0, n); down(h, 0, n); return h.Pop()`.
On an empty heap `n` is `-1` and `Swap` panics: `none`. -/
def heapPop (items : List JobItem) : Option (JobItem × List JobItem) :=
  if Len items = 0 then none
  else
    let n := Len items - 1
    Pop (down (Swap items 0 n) 0 n)

/-! ### The queue operations -/

/-- Go `NewPriorityQueue`: no items, open.  `heap.Init` on an empty slice runs no
iteration. -/
def NewPriorityQueue : PriorityQueue := { items := [], closed := false }

/-- Go `PriorityQueue.Enqueue`.  `id` is the result of `uuid.NewString()` and `now` of
`time.Now()`.  Returns `(id, ok)` and the queue afterwards. -/
def Enqueue (pq : PriorityQueue) (spec : JobSpec) (id : String) (now : Time) :
    (String × Bool) × PriorityQueue :=
  if pq.closed then (("", false), pq)
  else
    let item : JobItem := { ID := id, Spec := spec, Inserted := now, Index := 0 }
    ((item.ID, true), { pq with items := heapPush pq.items item })

/-- Outcome of one `DequeueBlocking` call in a given queue state. -/
inductive DequeueOutcome where
  /-- The caller waits on the condition variable (empty and open). -/
  | blocked
  /-- The call returns `nil`. -/
  | returnedNil
  /-- The call returns the item. -/
  | returned (item : JobItem)
  /-- The call panics inside `heap.Pop` (shown below never to happen). -/
  | panicked
deriving DecidableEq

/-- Go `PriorityQueue.DequeueBlocking` run in queue state `pq`. -/
def DequeueBlocking (pq : PriorityQueue) : DequeueOutcome × PriorityQueue :=
  if Len pq.items == 0 && !pq.closed then (DequeueOutcome.blocked, pq)
  else if pq.closed && Len pq.items == 0 then (DequeueOutcome.returnedNil, pq)
  else
    match heapPop pq.items with
    | some (item, rest) => (DequeueOutcome.returned item, { pq with items := rest })
    | none => (DequeueOutcome.panicked, pq)

/-- Go `PriorityQueue.Close`. -/
def Close (pq : PriorityQueue) : PriorityQueue := { pq with closed := true }

/-- Go `PriorityQueue.PendingJobs`: one record per element of `items`, in slice order. -/
def PendingJobs (pq : PriorityQueue) : List JobInfo :=
  pq.items.map fun it =>
    { ID := it.ID, Name := it.Spec.Name, Priority := it.Spec.Priority,
      Status := JobStatus.Pending, CreatedAt := it.Inserted,
      StartedAt := none, FinishedAt := none, ErrorMsg := "" }

/-- Go `PriorityQueue.List`. -/
def PriorityQueue.List (pq : PriorityQueue) : List JobInfo := PendingJobs pq

/-! ### Sequences of calls -/

/-- One submission: the spec, the id `uuid.NewString()` produces for it and the
timestamp `time.Now()` produces for it. -/
structure Submission where
  spec : JobSpec
  id : String
  now : Time
deriving DecidableEq

/-- Successive `Enqueue` calls; returns the results of the calls and the final queue. -/
def enqueueAll : PriorityQueue → List Submission → List (String × Bool) × PriorityQueue
  | pq, [] => ([], pq)
  | pq, s :: rest =>
    let r := Enqueue pq s.spec s.id s.now
    let rs := enqueueAll r.2 rest
    (r.1 :: rs.1, rs.2)

/-- Successive `DequeueBlocking` calls, `n` of them; returns the outcomes and the final
queue. -/
def dequeueN : Nat → PriorityQueue → List DequeueOutcome × PriorityQueue
  | 0, pq => ([], pq)
  | n + 1, pq =>
    let r := DequeueBlocking pq
    let rs := dequeueN n r.2
    (r.1 :: rs.1, rs.2)

/-- The items among a list of outcomes. -/
def returnedItems : List DequeueOutcome → List JobItem
  | [] => []
  | DequeueOutcome.returned it :: rest => it :: returnedItems rest
  | _ :: rest => returnedItems rest

/-- The entry a submission becomes in the queue. -/
def Submission.entry (s : Submission) : String × JobSpec × Time := (s.id, s.spec, s.now)

/-- The record `PendingJobs` builds for a queue entry. -/
def pendingRecord (e : String × JobSpec × Time) : JobInfo :=
  { ID := e.1, Name := e.2.1.Name, Priority := e.2.1.Priority,
    Status := JobStatus.Pending, CreatedAt := e.2.2,
    StartedAt := none, FinishedAt := none, ErrorMsg := "" }

/-- One call on the queue. -/
inductive QueueOp where
  | enqueue (s : Submission)
  | dequeue
  | close
deriving DecidableEq

/-- The queue after one call. -/
def applyOp (pq : PriorityQueue) : QueueOp → PriorityQueue
  | QueueOp.enqueue s => (Enqueue pq s.spec s.id s.now).2
  | QueueOp.dequeue => (DequeueBlocking pq).2
  | QueueOp.close => Close pq

/-- The queue after a sequence of calls. -/
def runOps (pq : PriorityQueue) (ops : List QueueOp) : PriorityQueue :=
  ops.foldl applyOp pq

/-! ### The scenario of the specification: A (priority 5), B (priority 10), C (priority 5) -/

/-- Submission A: priority 5, submitted first. -/
def scenarioA : Submission :=
  { spec := { Name := "A", Priority := 5, Job := "", Template := "" },
    id := "0a000000-0000-4000-8000-000000000001", now := 1 }

/-- Submission B: priority 10, submitted second. -/
def scenarioB : Submission :=
  { spec := { Name := "B", Priority := 10, Job := "", Template := "" },
    id := "0b000000-0000-4000-8000-000000000002", now := 2 }

/-- Submission C: priority 5, submitted third. -/
def scenarioC : Submission :=
  { spec := { Name := "C", Priority := 5, Job := "", Template := "" },
    id := "0c000000-0000-4000-8000-000000000003", now := 3 }

/-! ## packages/worker -/

/-- Go `map[string]models.JobInfo`, the in-flight table `Manager.running`. -/
abbrev Table := List (String × JobInfo)

/-- The comma-ok map read `v, ok := m[k]`. -/
def Table.get? (t : Table) (k : String) : Option JobInfo := t.lookup k

/-- The map read `m[k]`: the zero value when the key is missing. -/
def Table.read (t : Table) (k : String) : JobInfo := (t.get? k).getD JobInfo.zeroValue

/-- The map write `m[k] = v`. -/
def Table.set : Table → String → JobInfo → Table
  | [], k, v => [(k, v)]
  | (k1, v1) :: rest, k, v =>
    if k1 = k then (k, v) :: rest else (k1, v1) :: Table.set rest k v

/-- The map removal `delete(m, k)`. -/
def Table.delete (t : Table) (k : String) : Table := t.filter fun e => e.1 != k

/-- The fields of `batchv1.Job` the program writes or reads: object metadata, the pod
template, and the `Status.Succeeded` and `Status.Failed` counts. -/
structure BatchJob where
  Name : String
  Namespace : String
  Labels : List (String × String)
  Template : PodTemplateSpec
  Succeeded : Int
  Failed : Int
deriving DecidableEq

/-- The label read `job.Labels[key]`: the empty string when the label is missing. -/
def BatchJob.label (job : BatchJob) (key : String) : String :=
  (job.Labels.lookup key).getD ""

/-- The record `workerLoop` stores for a dequeued item. -/
def runningRecord (jobItem : JobItem) (now : Time) : JobInfo :=
  { ID := jobItem.ID, Name := jobItem.Spec.Name, Priority := jobItem.Spec.Priority,
    Status := JobStatus.Running, CreatedAt := jobItem.Inserted,
    StartedAt := some now, FinishedAt := none, ErrorMsg := "" }

/-- The critical section of `Manager.workerLoop` after a successful dequeue:
`m.running[jobItem.ID] = models.JobInfo{...}`. -/
def recordRunning (running : Table) (jobItem : JobItem) (now : Time) : Table :=
  running.set jobItem.ID (runningRecord jobItem now)

/-- One iteration of the loop of `Manager.workerLoop`, from `DequeueBlocking` to the
start of the dispatch task: the outcome of the dequeue, the queue and the table
afterwards.  On `nil` the worker returns and nothing changes.  The non-blocking poll of
`stopCh` before the dequeue only ends the loop and is left out. -/
def workerLoop (pq : PriorityQueue) (running : Table) (now : Time) :
    DequeueOutcome × PriorityQueue × Table :=
  match DequeueBlocking pq with
  | (DequeueOutcome.returned jobItem, pq1) =>
    (DequeueOutcome.returned jobItem, pq1, recordRunning running jobItem now)
  | (outcome, pq1) => (outcome, pq1, running)

/-- The job resource `Manager.submitJob` builds.  `item.ID[:8]` is a byte slice and
panics on an id shorter than eight bytes: `none`. -/
def buildJob (ns : String) (item : JobItem) : Option BatchJob :=
  if item.ID.utf8ByteSize < 8 then none
  else
    some
      { Name := item.Spec.Name ++ "-" ++ item.ID.extract ⟨0⟩ ⟨8⟩,
        Namespace := ns,
        Labels := [("kubeserver/owner", "true"), ("kubeserver/job-id", item.ID),
          ("kubeserver/priority", toString item.Spec.Priority)],
        Template := item.Spec.Template,
        Succeeded := 0, Failed := 0 }

/-- Go `Manager.submitJob` on the in-flight table.  `create` is the backend call
`Jobs(ns).Create`: `some e` is an error with text `e`, `none` is success.  `now` is the
`time.Now()` of the failure branch.  The result is `none` when the function panics. -/
def submitJob (running : Table) (ns : String) (item : JobItem)
    (create : BatchJob → Option String) (now : Time) : Option Table :=
  match buildJob ns item with
  | none => none
  | some job =>
    match create job with
    | some err =>
      let info := running.read item.ID
      some (running.set item.ID
        { info with Status := JobStatus.Failed, ErrorMsg := err, FinishedAt := some now })
    | none => some running

/-- The test of the informer loops:
`info.Name == job.Name || info.ID == job.Labels["kubeserver/job-id"]`. -/
def matchesJob (info : JobInfo) (job : BatchJob) : Bool :=
  info.Name == job.Name || info.ID == job.label "kubeserver/job-id"

/-- The loop `for id, info := range m.running { if ... { delete(m.running, id); break } }`
shared by `UpdateFunc` and `DeleteFunc`; `order` lists the map entries in the order the
`range` visits them.  The `FinishedAt` and `Status` that `UpdateFunc` writes go to the
loop variable `info`, a copy that is dropped. -/
def deleteFirstMatch (running : Table) (job : BatchJob) : List (String × JobInfo) → Table
  | [] => running
  | (id, info) :: rest =>
    if matchesJob info job then running.delete id
    else deleteFirstMatch running job rest

/-- The informer's `AddFunc`: logs only. -/
def AddFunc (running : Table) (_obj : BatchJob) : Table := running

/-- The informer's `UpdateFunc` on the in-flight table, visiting the map in `order`. -/
def UpdateFunc (running : Table) (order : List (String × JobInfo)) (newObj : BatchJob) :
    Table :=
  if newObj.Succeeded > 0 || newObj.Failed > 0 then deleteFirstMatch running newObj order
  else running

/-- The informer's `DeleteFunc` on the in-flight table, visiting the map in `order`. -/
def DeleteFunc (running : Table) (order : List (String × JobInfo)) (obj : BatchJob) :
    Table :=
  deleteFirstMatch running obj order

/-- Go `Manager.RunningJobs`: the values of the map in the order the `range` visits
them. -/
def RunningJobs (order : List (String × JobInfo)) : List JobInfo := order.map Prod.snd

/-! ### The scheduler as a transition system -/

/-- The shared state of queue, workers, dispatch tasks and informer. -/
structure System where
  /-- The namespace the manager was created with. -/
  ns : String
  /-- The priority queue. -/
  pq : PriorityQueue
  /-- The in-flight table `Manager.running`. -/
  running : Table
  /-- Items a worker has dequeued and not yet recorded. -/
  held : List JobItem
  /-- Items handed to `go m.submitJob` whose create call has not settled. -/
  dispatching : List JobItem
  /-- The ids `uuid.NewString` has returned so far. -/
  issued : List String
deriving DecidableEq

/-- The shape of a `uuid.NewString()` result used here: 36 bytes. -/
def isUUIDString (id : String) : Bool := id.utf8ByteSize == 36

/-- One atomic step of the system. -/
inductive Event where
  /-- An `Enqueue(spec)` call, with the id and timestamp the call obtains. -/
  | enqueue (spec : JobSpec) (id : String) (now : Time)
  /-- A worker's `DequeueBlocking` call returns. -/
  | workerDequeue
  /-- A worker records the item it holds as running and starts its dispatch task. -/
  | workerRecord (item : JobItem) (now : Time)
  /-- The create call of a dispatch task succeeds. -/
  | dispatchSucceeds (item : JobItem)
  /-- The create call of a dispatch task fails with error text `err`. -/
  | dispatchFails (item : JobItem) (err : String) (now : Time)
  /-- An Added notification. -/
  | added (job : BatchJob)
  /-- An Updated notification, handled with the map visited in `order`. -/
  | updated (job : BatchJob) (order : List (String × JobInfo))
  /-- A Deleted notification, handled with the map visited in `order`. -/
  | deleted (job : BatchJob) (order : List (String × JobInfo))
  /-- The queue is closed, as `Manager.Stop` does. -/
  | close
deriving DecidableEq

/-- The state after one event, `none` when the event cannot happen in the state: a
generated id that is not fresh or not of UUID shape, a `DequeueBlocking` that does not
return, an item the worker or dispatch task does not have, a visiting order that is not
an enumeration of the map, or a panic. -/
def step (s : System) : Event → Option System
  | Event.enqueue spec id now =>
    if s.pq.closed then some s
    else if id ∈ s.issued ∨ isUUIDString id = false then none
    else some { s with pq := (Enqueue s.pq spec id now).2, issued := id :: s.issued }
  | Event.workerDequeue =>
    match DequeueBlocking s.pq with
    | (DequeueOutcome.returned item, pq1) => some { s with pq := pq1, held := item :: s.held }
    | (DequeueOutcome.returnedNil, _) => some s
    | (DequeueOutcome.blocked, _) => none
    | (DequeueOutcome.panicked, _) => none
  | Event.workerRecord item now =>
    if item ∈ s.held then
      some { s with
        running := recordRunning s.running item now,
        held := s.held.erase item,
        dispatching := item :: s.dispatching }
    else none
  | Event.dispatchSucceeds item =>
    if item ∈ s.dispatching then
      match submitJob s.running s.ns item (fun _ => none) 0 with
      | some t => some { s with running := t, dispatching := s.dispatching.erase item }
      | none => none
    else none
  | Event.dispatchFails item err now =>
    if item ∈ s.dispatching then
      match submitJob s.running s.ns item (fun _ => some err) now with
      | some t => some { s with running := t, dispatching := s.dispatching.erase item }
      | none => none
    else none
  | Event.added job => some { s with running := AddFunc s.running job }
  | Event.updated job order =>
    if order.Perm s.running then some { s with running := UpdateFunc s.running order job }
    else none
  | Event.deleted job order =>
    if order.Perm s.running then some { s with running := DeleteFunc s.running order job }
    else none
  | Event.close => some { s with pq := Close s.pq }

/-- The state after a sequence of events. -/
def run (s : System) : List Event → Option System
  | [] => some s
  | e :: rest =>
    match step s e with
    | some s1 => run s1 rest
    | none => none

/-- The system `main` sets up: an empty open queue and an empty in-flight table. -/
def initial (ns : String) : System :=
  { ns := ns, pq := NewPriorityQueue, running := [], held := [], dispatching := [],
    issued := [] }

/-! ### A scenario for the worker pool: a job named "build" and a later job named after
the resource created for it -/

/-- The id `uuid.NewString` returns for the first submission. -/
def buildId : String := "1b4e28ba-2fa1-41d2-883f-0016d3cca427"

/-- The first submission: a job named "build". -/
def buildSpec : JobSpec := { Name := "build", Priority := 1, Job := "", Template := "" }

/-- The queue item of the first submission, as `DequeueBlocking` returns it. -/
def buildItem : JobItem := { ID := buildId, Spec := buildSpec, Inserted := 1, Index := 0 }

/-- The resource `submitJob` creates for the first submission. -/
def buildResource : BatchJob :=
  { Name := "build-1b4e28ba", Namespace := "default",
    Labels := [("kubeserver/owner", "true"), ("kubeserver/job-id", buildId),
      ("kubeserver/priority", "1")],
    Template := "", Succeeded := 0, Failed := 0 }

/-- The same resource once the backend reports one successful completion. -/
def buildResourceDone : BatchJob := { buildResource with Succeeded := 1 }

/-- The id `uuid.NewString` returns for the second submission. -/
def cloneId : String := "7c9e6679-7425-40de-944b-e07fc1f90ae7"

/-- The second submission: a job whose name is the name of the first job's resource. -/
def cloneSpec : JobSpec :=
  { Name := "build-1b4e28ba", Priority := 1, Job := "", Template := "" }

/-- The queue item of the second submission, as `DequeueBlocking` returns it. -/
def cloneItem : JobItem := { ID := cloneId, Spec := cloneSpec, Inserted := 5, Index := 0 }

/-- A job resource in the namespace that the scheduler did not create: named "build",
without labels. -/
def foreignResource : BatchJob :=
  { Name := "build", Namespace := "default", Labels := [], Template := "",
    Succeeded := 0, Failed := 0 }

/-- Both submissions dispatched with success, then the Updated notification of the first
job's resource arrives and the map is visited second record first. -/
def nameCollisionTrace : List Event :=
  [Event.enqueue buildSpec buildId 1, Event.workerDequeue, Event.workerRecord buildItem 2,
   Event.dispatchSucceeds buildItem,
   Event.enqueue cloneSpec cloneId 5, Event.workerDequeue, Event.workerRecord cloneItem 6,
   Event.dispatchSucceeds cloneItem,
   Event.updated buildResourceDone
     [(cloneId, runningRecord cloneItem 6), (buildId, runningRecord buildItem 2)]]

/-- The first submission is dequeued and recorded, a Deleted notification for the foreign
resource named "build" arrives while the create call is in flight, then the create call
fails. -/
def lateFailureTrace : List Event :=
  [Event.enqueue buildSpec buildId 1, Event.workerDequeue, Event.workerRecord buildItem 2,
   Event.deleted foreignResource [(buildId, runningRecord buildItem 2)],
   Event.dispatchFails buildItem "connection refused" 3]

/-- Two submissions, the first of them dequeued and recorded. -/
def mixedTrace : List Event :=
  [Event.enqueue buildSpec buildId 1, Event.enqueue cloneSpec cloneId 5,
   Event.workerDequeue, Event.workerRecord { buildItem with Index := 1 } 6]

/-- The state `mixedTrace` leads to: the second submission queued, the first one
tracked as running with its dispatch task started. -/
def mixedState : System :=
  { ns := "default",
    pq := { items := [cloneItem], closed := false },
    running := [(buildId, runningRecord { buildItem with Index := 1 } 6)],
    held := [],
    dispatching := [{ buildItem with Index := 1 }],
    issued := [cloneId, buildId] }

/-- The id `uuid.NewString` returns for a third, unrelated submission. -/
def lintId : String := "3f2504e0-4f89-41d3-9a0c-0305e82c3301"

/-- The queue item of the third submission: a job named "lint". -/
def lintItem : JobItem :=
  { ID := lintId, Spec := { Name := "lint", Priority := 1, Job := "", Template := "" },
    Inserted := 7, Index := 0 }

/-! ## Predicates used in the proofs -/

/-- The max-heap condition on the first `n` slots: no child outranks its parent. -/
def IsHeapUpTo (items : List JobItem) (n : Nat) : Prop :=
  ∀ c, 0 < c → c < n → prioAt items c ≤ prioAt items ((c - 1) / 2)

/-- The max-heap condition on the whole slice. -/
def IsHeap (items : List JobItem) : Prop := IsHeapUpTo items items.length

/-- The child index `heap.down` selects at parent `i` under bound `n`. -/
def pickChild (items : List JobItem) (i n : Nat) : Nat :=
  if 2 * i + 1 + 1 < n && Less items (2 * i + 1 + 1) (2 * i + 1) then 2 * i + 1 + 1 else 2 * i + 1

/-- The ids of the queued items. -/
def queuedIds (pq : PriorityQueue) : List String := pq.items.map fun it => it.ID

/-- What the reachable states of the system satisfy: queued ids are distinct, issued and
non-empty; no held, dispatching or tracked id is queued; a tracked record carries its key
or the empty id. -/
def Inv (s : System) : Prop :=
  (queuedIds s.pq).Nodup ∧
  (∀ id ∈ queuedIds s.pq, id ∈ s.issued) ∧
  (∀ it ∈ s.held ++ s.dispatching, it.ID ∈ s.issued ∧ it.ID ∉ queuedIds s.pq) ∧
  (∀ e ∈ s.running, e.1 ∈ s.issued ∧ e.1 ∉ queuedIds s.pq ∧ (e.2.ID = e.1 ∨ e.2.ID = "")) ∧
  (∀ id ∈ s.issued, id ≠ "")

/-! ## Facts about `Swap` -/

theorem cons_set_perm {α : Type} (x b : α) :
    ∀ (t : List α) (j : Nat), t[j]? = some b → (b :: t.set j x).Perm (x :: t)
  | [], j, h => by simp at h
  | y :: s, 0, h => by
    simp at h
    subst h
    simpa using List.Perm.swap x y s
  | y :: s, j + 1, h => by
    simp at h
    have ih := cons_set_perm x b s j h
    simp only [List.set_cons_succ]
    exact (List.Perm.swap y b _).trans (((List.Perm.cons y ih)).trans (List.Perm.swap x y s))

theorem set_set_perm {α : Type} (a b : α) :
    ∀ (l : List α) (i j : Nat), l[i]? = some a → l[j]? = some b →
      ((l.set i b).set j a).Perm l
  | [], i, _, hi, _ => by simp at hi
  | x :: t, 0, 0, hi, hj => by
    simp at hi hj
    subst hi
    simp
  | x :: t, 0, j + 1, hi, hj => by
    simp at hi hj
    subst hi
    simpa using cons_set_perm x b t j hj
  | x :: t, i + 1, 0, hi, hj => by
    simp at hi hj
    subst hj
    simpa using cons_set_perm x a t i hi
  | x :: t, i + 1, j + 1, hi, hj => by
    simp at hi hj
    simpa using set_set_perm a b t i j hi hj

theorem Swap_length (items : List JobItem) (i j : Nat) :
    (Swap items i j).length = items.length := by
  unfold Swap
  split <;> simp

theorem Swap_getElem? (items : List JobItem) (i j k : Nat) (a b : JobItem)
    (hi : items[i]? = some a) (hj : items[j]? = some b) :
    (Swap items i j)[k]? =
      if k = j then some { a with Index := j }
      else if k = i then some { b with Index := i } else items[k]? := by
  have hil : i < items.length := by
    rcases Nat.lt_or_ge i items.length with h | h
    · exact h
    · rw [List.getElem?_eq_none h] at hi; cases hi
  have hjl : j < items.length := by
    rcases Nat.lt_or_ge j items.length with h | h
    · exact h
    · rw [List.getElem?_eq_none h] at hj; cases hj
  unfold Swap
  rw [hi, hj]
  simp only [List.getElem?_set, List.length_set]
  by_cases h1 : k = j
  · subst h1; simp [hjl]
  · by_cases h2 : k = i
    · subst h2
      simp [hil, h1, Ne.symm h1]
    · simp [h1, h2, Ne.symm h1, Ne.symm h2]

theorem prioAt_Swap (items : List JobItem) (i j k : Nat)
    (hi : i < items.length) (hj : j < items.length) :
    prioAt (Swap items i j) k =
      if k = j then prioAt items i else if k = i then prioAt items j else prioAt items k := by
  have ha : items[i]? = some items[i] := List.getElem?_eq_getElem hi
  have hb : items[j]? = some items[j] := List.getElem?_eq_getElem hj
  unfold prioAt
  rw [Swap_getElem? items i j k _ _ ha hb, ha, hb]
  by_cases h1 : k = j
  · simp [h1]
  · by_cases h2 : k = i
    · subst h2
      simp [h1]
    · simp [h1, h2]

theorem Swap_entry_perm (items : List JobItem) (i j : Nat) :
    ((Swap items i j).map JobItem.entry).Perm (items.map JobItem.entry) := by
  unfold Swap
  split
  · next a b hi hj =>
    have h1 : (items.map JobItem.entry)[i]? = some a.entry := by simp [hi]
    have h2 : (items.map JobItem.entry)[j]? = some b.entry := by simp [hj]
    have := set_set_perm a.entry b.entry (items.map JobItem.entry) i j h1 h2
    simpa [List.map_set, JobItem.entry] using this
  · exact List.Perm.refl _

/-! ## `heap.up` and `heap.down` restore the heap condition -/

theorem upLoop_length : ∀ (fuel : Nat) (items : List JobItem) (j : Nat),
    (upLoop fuel items j).length = items.length
  | 0, items, j => rfl
  | fuel + 1, items, j => by
    simp only [upLoop]
    split
    · rfl
    · rw [upLoop_length fuel, Swap_length]

theorem upLoop_heap : ∀ (fuel : Nat) (items : List JobItem) (j : Nat),
    j < fuel → j < items.length →
    (∀ c, 0 < c → c < items.length → c ≠ j →
      prioAt items c ≤ prioAt items ((c - 1) / 2)) →
    (∀ c, 0 < c → c < items.length → (c - 1) / 2 = j → 0 < j →
      prioAt items c ≤ prioAt items ((j - 1) / 2)) →
    IsHeap (upLoop fuel items j)
  | 0, _, _, hf, _, _, _ => by omega
  | fuel + 1, items, j, hf, hj, h1, h2 => by
    simp only [upLoop]
    split
    · next hc =>
      intro c hc0 hcl
      by_cases hcj : c = j
      · subst hcj
        simp only [Bool.or_eq_true, beq_iff_eq, Bool.not_eq_true', Less,
          decide_eq_false_iff_not, not_lt] at hc
        rcases hc with hc | hc
        · omega
        · exact hc
      · exact h1 c hc0 hcl hcj
    · next hc =>
      simp only [Bool.or_eq_true, beq_iff_eq, Bool.not_eq_true', Less,
        decide_eq_false_iff_not, not_lt, not_or, not_le] at hc
      obtain ⟨hij, hlt⟩ := hc
      have hi : (j - 1) / 2 < items.length := by omega
      have hj0 : 0 < j := by omega
      apply upLoop_heap fuel
      · omega
      · rw [Swap_length]; exact hi
      · intro c hc0 hcl hci
        rw [Swap_length] at hcl
        rw [prioAt_Swap _ _ _ _ hi hj, prioAt_Swap _ _ _ _ hi hj]
        by_cases e1 : c = j
        · subst e1
          simp only [if_true]
          omega
        · rw [if_neg e1, if_neg hci]
          have hc1 := h1 c hc0 hcl e1
          by_cases e2 : (c - 1) / 2 = j
          · rw [if_pos e2]
            have := h2 c hc0 hcl e2 hj0
            exact this
          · rw [if_neg e2]
            by_cases e3 : (c - 1) / 2 = (j - 1) / 2
            · rw [if_pos e3]
              rw [e3] at hc1
              omega
            · rw [if_neg e3]
              exact hc1
      · intro c hc0 hcl hcp hi0
        rw [Swap_length] at hcl
        rw [prioAt_Swap _ _ _ _ hi hj, prioAt_Swap _ _ _ _ hi hj]
        have n1 : ((j - 1) / 2 - 1) / 2 ≠ j := by omega
        have n2 : ((j - 1) / 2 - 1) / 2 ≠ (j - 1) / 2 := by omega
        rw [if_neg n1, if_neg n2]
        have hpar := h1 ((j - 1) / 2) hi0 hi (by omega)
        by_cases e1 : c = j
        · rw [if_pos e1]
          exact hpar
        · rw [if_neg e1]
          have e2 : c ≠ (j - 1) / 2 := by omega
          rw [if_neg e2]
          have := h1 c hc0 hcl e1
          rw [hcp] at this
          omega

theorem pickChild_spec (items : List JobItem) (i n : Nat) (h : 2 * i + 1 < n) :
    pickChild items i n < n ∧
    (pickChild items i n = 2 * i + 1 ∨ pickChild items i n = 2 * i + 2) ∧
    prioAt items (2 * i + 1) ≤ prioAt items (pickChild items i n) ∧
    (2 * i + 2 < n → prioAt items (2 * i + 2) ≤ prioAt items (pickChild items i n)) := by
  unfold pickChild
  by_cases hc : (2 * i + 1 + 1 < n && Less items (2 * i + 1 + 1) (2 * i + 1)) = true
  · rw [if_pos hc]
    simp only [Bool.and_eq_true, decide_eq_true_eq, Less] at hc
    refine ⟨hc.1, Or.inr rfl, by omega, fun _ => le_refl _⟩
  · rw [if_neg hc]
    simp only [Bool.and_eq_true, decide_eq_true_eq, Less, not_and, not_lt] at hc
    refine ⟨h, Or.inl rfl, le_refl _, fun h2 => hc h2⟩

theorem downLoop_step (fuel : Nat) (items : List JobItem) (i n : Nat) :
    downLoop (fuel + 1) items i n =
      if 2 * i + 1 ≥ n then items
      else if !Less items (pickChild items i n) i then items
      else downLoop fuel (Swap items i (pickChild items i n)) (pickChild items i n) n := by
  simp only [downLoop, pickChild]

theorem downLoop_heap : ∀ (fuel : Nat) (items : List JobItem) (i n : Nat),
    n ≤ items.length → n ≤ i + fuel → i < n →
    (∀ c, 0 < c → c < n → (c - 1) / 2 ≠ i →
      prioAt items c ≤ prioAt items ((c - 1) / 2)) →
    (∀ c, 0 < c → c < n → (c - 1) / 2 = i → 0 < i →
      prioAt items c ≤ prioAt items ((i - 1) / 2)) →
    IsHeapUpTo (downLoop fuel items i n) n
  | 0, _, _, _, _, hf, hi, _, _ => by omega
  | fuel + 1, items, i, n, hn, hf, hi, h1, h2 => by
    rw [downLoop_step]
    by_cases hleaf : 2 * i + 1 ≥ n
    · rw [if_pos hleaf]
      intro c hc0 hcn
      exact h1 c hc0 hcn (by omega)
    · rw [if_neg hleaf]
      obtain ⟨pj, pc, p1, p2⟩ := pickChild_spec items i n (by omega)
      generalize pickChild items i n = j at pj pc p1 p2 ⊢
      by_cases hle : (!Less items j i) = true
      · rw [if_pos hle]
        simp only [Less, Bool.not_eq_true', decide_eq_false_iff_not, not_lt] at hle
        intro c hc0 hcn
        by_cases hp : (c - 1) / 2 = i
        · rw [hp]
          have hcc : c = 2 * i + 1 ∨ c = 2 * i + 2 := by omega
          rcases hcc with hcc | hcc
          · subst hcc; omega
          · subst hcc
            have := p2 hcn
            omega
        · exact h1 c hc0 hcn hp
      · rw [if_neg hle]
        simp only [Less, Bool.not_eq_true', decide_eq_false_iff_not, not_lt, not_le] at hle
        have hil : i < items.length := by omega
        have hjl : j < items.length := by omega
        have hji : (j - 1) / 2 = i := by omega
        apply downLoop_heap fuel
        · rw [Swap_length]; exact hn
        · omega
        · exact pj
        · intro c hc0 hcn hpj
          rw [prioAt_Swap _ _ _ _ hil hjl, prioAt_Swap _ _ _ _ hil hjl]
          rw [if_neg hpj]
          by_cases e1 : c = j
          · subst e1
            rw [if_pos rfl, if_pos hji]
            omega
          · rw [if_neg e1]
            by_cases e2 : (c - 1) / 2 = i
            · rw [if_pos e2]
              have hci : c ≠ i := by omega
              rw [if_neg hci]
              have hcc : c = 2 * i + 1 ∨ c = 2 * i + 2 := by omega
              rcases hcc with hcc | hcc
              · subst hcc; exact p1
              · subst hcc; exact p2 hcn
            · rw [if_neg e2]
              by_cases e3 : c = i
              · subst e3
                rw [if_pos rfl]
                have h3 := h2 j (by omega) pj hji hc0
                exact h3
              · rw [if_neg e3]
                exact h1 c hc0 hcn e2
        · intro c hc0 hcn hpj hj0
          rw [prioAt_Swap _ _ _ _ hil hjl, prioAt_Swap _ _ _ _ hil hjl]
          have e1 : c ≠ j := by omega
          have e2 : c ≠ i := by omega
          have e3 : (j - 1) / 2 ≠ j := by omega
          rw [if_neg e1, if_neg e2, if_neg e3, if_pos hji]
          have h3 := h1 c hc0 hcn (by omega)
          rw [hpj] at h3
          exact h3

/-! ## The iteration bounds of `up` and `down` are never reached -/

theorem upLoop_fuel : ∀ (f g : Nat) (items : List JobItem) (j : Nat),
    j < f → j < g → upLoop f items j = upLoop g items j
  | 0, _, _, _, hf, _ => by omega
  | _ + 1, 0, _, _, _, hg => by omega
  | f + 1, g + 1, items, j, hf, hg => by
    simp only [upLoop]
    split
    · rfl
    · next hc =>
      simp only [Bool.or_eq_true, beq_iff_eq, not_or] at hc
      exact upLoop_fuel f g _ _ (by omega) (by omega)

theorem downLoop_fuel : ∀ (f g : Nat) (items : List JobItem) (i n : Nat),
    n ≤ i + f → n ≤ i + g → downLoop f items i n = downLoop g items i n
  | 0, 0, _, _, _, _, _ => rfl
  | 0, g + 1, items, i, n, hf, _ => by
    rw [downLoop_step, if_pos (by omega)]; rfl
  | f + 1, 0, items, i, n, _, hg => by
    rw [downLoop_step, if_pos (by omega)]; rfl
  | f + 1, g + 1, items, i, n, hf, hg => by
    rw [downLoop_step, downLoop_step]
    split
    · rfl
    · next hleaf =>
      split
      · rfl
      · obtain ⟨_, pc, _, _⟩ := pickChild_spec items i n (by omega)
        exact downLoop_fuel f g _ _ _ (by omega) (by omega)

/-! ## heap.Push and heap.Pop -/

theorem Swap_getElem?_of_ne (items : List JobItem) (i j k : Nat) (hi : k ≠ i) (hj : k ≠ j) :
    (Swap items i j)[k]? = items[k]? := by
  unfold Swap
  split
  · rw [List.getElem?_set_ne (Ne.symm hj), List.getElem?_set_ne (Ne.symm hi)]
  · rfl

theorem upLoop_entry_perm : ∀ (fuel : Nat) (items : List JobItem) (j : Nat),
    ((upLoop fuel items j).map JobItem.entry).Perm (items.map JobItem.entry)
  | 0, items, j => List.Perm.refl _
  | fuel + 1, items, j => by
    simp only [upLoop]
    split
    · exact List.Perm.refl _
    · exact (upLoop_entry_perm fuel _ _).trans (Swap_entry_perm items _ _)

theorem downLoop_length : ∀ (fuel : Nat) (items : List JobItem) (i n : Nat),
    (downLoop fuel items i n).length = items.length
  | 0, items, i, n => rfl
  | fuel + 1, items, i, n => by
    rw [downLoop_step]
    split
    · rfl
    · split
      · rfl
      · rw [downLoop_length fuel, Swap_length]

theorem downLoop_entry_perm : ∀ (fuel : Nat) (items : List JobItem) (i n : Nat),
    ((downLoop fuel items i n).map JobItem.entry).Perm (items.map JobItem.entry)
  | 0, items, i, n => List.Perm.refl _
  | fuel + 1, items, i, n => by
    rw [downLoop_step]
    split
    · exact List.Perm.refl _
    · split
      · exact List.Perm.refl _
      · exact (downLoop_entry_perm fuel _ _ _).trans (Swap_entry_perm items _ _)

theorem downLoop_getElem?_of_ge : ∀ (fuel : Nat) (items : List JobItem) (i n k : Nat),
    n ≤ k → (downLoop fuel items i n)[k]? = items[k]?
  | 0, items, i, n, k, _ => rfl
  | fuel + 1, items, i, n, k, hk => by
    rw [downLoop_step]
    split
    · rfl
    · next hleaf =>
      split
      · rfl
      · obtain ⟨pj, _, _, _⟩ := pickChild_spec items i n (by omega)
        rw [downLoop_getElem?_of_ge fuel _ _ _ _ hk]
        exact Swap_getElem?_of_ne items _ _ _ (by omega) (by omega)

theorem IsHeap.root_max {items : List JobItem} (h : IsHeap items) :
    ∀ k, k < items.length → prioAt items k ≤ prioAt items 0 := by
  intro k
  induction k using Nat.strong_induction_on with
  | _ k ih =>
    intro hk
    rcases Nat.eq_zero_or_pos k with h0 | h0
    · subst h0; exact le_refl _
    · have h1 := h k h0 hk
      have h2 := ih ((k - 1) / 2) (by omega) (by omega)
      exact le_trans h1 h2

theorem prioAt_append_left (items : List JobItem) (x : JobItem) (k : Nat)
    (hk : k < items.length) : prioAt (items ++ [x]) k = prioAt items k := by
  unfold prioAt
  rw [List.getElem?_append_left hk]

theorem heapPush_length (items : List JobItem) (x : JobItem) :
    (heapPush items x).length = items.length + 1 := by
  simp [heapPush, up, Push, upLoop_length]

theorem heapPush_entry_perm (items : List JobItem) (x : JobItem) :
    ((heapPush items x).map JobItem.entry).Perm (items.map JobItem.entry ++ [x.entry]) := by
  have := upLoop_entry_perm (Len (Push items x) - 1 + 1) (Push items x) (Len (Push items x) - 1)
  simpa [heapPush, up, Push] using this

theorem heapPush_isHeap (items : List JobItem) (x : JobItem) (h : IsHeap items) :
    IsHeap (heapPush items x) := by
  have hlen : Len (Push items x) - 1 = items.length := by simp [Len, Push]
  show IsHeap (upLoop (Len (Push items x) - 1 + 1) (Push items x) (Len (Push items x) - 1))
  rw [hlen]
  apply upLoop_heap
  · omega
  · simp [Push]
  · intro c hc0 hcl hcne
    simp only [Push, List.length_append, List.length_singleton] at hcl
    have hc : c < items.length := by omega
    rw [Push, prioAt_append_left _ _ _ hc, prioAt_append_left _ _ _ (by omega)]
    exact h c hc0 hc
  · intro c hc0 hcl hcp _
    simp only [Push, List.length_append, List.length_singleton] at hcl
    omega

theorem prioAt_dropLast (ys : List JobItem) (c : Nat) (hc : c < ys.length - 1) :
    prioAt ys.dropLast c = prioAt ys c := by
  unfold prioAt
  rw [List.dropLast_eq_take, List.getElem?_take_of_lt hc]

theorem heapPop_spec (items : List JobItem) (a : JobItem) (h0 : items[0]? = some a) :
    ∃ rest, heapPop items = some ({ a with Index := items.length - 1 }, rest) ∧
      rest.length + 1 = items.length ∧
      (a.entry :: rest.map JobItem.entry).Perm (items.map JobItem.entry) ∧
      (IsHeap items → IsHeap rest) := by
  have hpos : 0 < items.length := by
    rcases Nat.eq_zero_or_pos items.length with h | h
    · rw [List.getElem?_eq_none (by omega)] at h0; cases h0
    · exact h
  obtain ⟨b, hb⟩ : ∃ b, items[items.length - 1]? = some b :=
    ⟨_, List.getElem?_eq_getElem (by omega)⟩
  set n := items.length - 1 with hn
  set ys := down (Swap items 0 n) 0 n with hys
  have hyl : ys.length = items.length := by
    rw [hys, down, downLoop_length, Swap_length]
  have hlast : ys.getLast? = some { a with Index := n } := by
    rw [List.getLast?_eq_getElem?, hyl, ← hn, hys, down,
      downLoop_getElem?_of_ge _ _ _ _ _ (le_refl _), Swap_getElem? items 0 n n a b h0 hb]
    simp
  have hperm : (ys.map JobItem.entry).Perm (items.map JobItem.entry) := by
    rw [hys, down]
    exact (downLoop_entry_perm _ _ _ _).trans (Swap_entry_perm _ _ _)
  refine ⟨ys.dropLast, ?_, ?_, ?_, ?_⟩
  · unfold heapPop
    have : ¬ Len items = 0 := by simp only [Len]; omega
    rw [if_neg this]
    simp only [Len, ← hn, ← hys, Pop, hlast]
  · rw [List.length_dropLast, hyl]; omega
  · have hsplit : ys = ys.dropLast ++ [{ a with Index := n }] := by
      have := List.dropLast_append_getLast? _ (Option.mem_def.mpr hlast)
      exact this.symm
    have e : ys.map JobItem.entry = ys.dropLast.map JobItem.entry ++ [a.entry] := by
      conv_lhs => rw [hsplit]
      simp [JobItem.entry]
    rw [e] at hperm
    exact (List.perm_append_singleton _ _).symm.trans hperm
  · intro hh
    have hup : IsHeapUpTo ys n := by
      rcases Nat.eq_zero_or_pos n with hz | hz
      · intro c hc0 hcn; omega
      · rw [hys, down]
        apply downLoop_heap
        · rw [Swap_length]; omega
        · omega
        · exact hz
        · intro c hc0 hcn hp
          have hnl : n < items.length := by omega
          rw [prioAt_Swap _ _ _ _ hpos hnl, prioAt_Swap _ _ _ _ hpos hnl]
          rw [if_neg (by omega), if_neg (by omega), if_neg (by omega), if_neg hp]
          exact hh c hc0 (by omega)
        · intro c _ _ _ hi0; omega
    intro c hc0 hcl
    rw [List.length_dropLast, hyl, ← hn] at hcl
    rw [prioAt_dropLast _ _ (by omega), prioAt_dropLast _ _ (by omega)]
    exact hup c hc0 hcl

/-! ## The queue operations keep the heap condition and the entries -/

theorem DequeueBlocking_nonempty (pq : PriorityQueue) (a : JobItem)
    (h0 : pq.items[0]? = some a) :
    ∃ rest, DequeueBlocking pq =
        (DequeueOutcome.returned { a with Index := pq.items.length - 1 },
          { pq with items := rest }) ∧
      rest.length + 1 = pq.items.length ∧
      (a.entry :: rest.map JobItem.entry).Perm (pq.items.map JobItem.entry) ∧
      (IsHeap pq.items → IsHeap rest) := by
  obtain ⟨rest, hpop, hlen, hperm, hheap⟩ := heapPop_spec pq.items a h0
  refine ⟨rest, ?_, hlen, hperm, hheap⟩
  have hne : pq.items.length ≠ 0 := by omega
  unfold DequeueBlocking
  simp [Len, hne, hpop]

theorem DequeueBlocking_closed_empty (pq : PriorityQueue) (hc : pq.closed = true)
    (he : pq.items = []) : DequeueBlocking pq = (DequeueOutcome.returnedNil, pq) := by
  unfold DequeueBlocking
  simp [Len, hc, he]

theorem DequeueBlocking_open_empty (pq : PriorityQueue) (hc : pq.closed = false)
    (he : pq.items = []) : DequeueBlocking pq = (DequeueOutcome.blocked, pq) := by
  unfold DequeueBlocking
  simp [Len, hc, he]

theorem exists_head_of_ne_nil (items : List JobItem) (h : items ≠ []) :
    ∃ a, items[0]? = some a := by
  cases items with
  | nil => exact absurd rfl h
  | cons a t => exact ⟨a, by simp⟩

theorem DequeueBlocking_isHeap (pq : PriorityQueue) (h : IsHeap pq.items) :
    IsHeap (DequeueBlocking pq).2.items := by
  by_cases he : pq.items = []
  · cases hc : pq.closed
    · rw [DequeueBlocking_open_empty pq hc he]; exact h
    · rw [DequeueBlocking_closed_empty pq hc he]; exact h
  · obtain ⟨a, ha⟩ := exists_head_of_ne_nil _ he
    obtain ⟨rest, hd, _, _, hh⟩ := DequeueBlocking_nonempty pq a ha
    rw [hd]
    exact hh h

theorem Enqueue_isHeap (pq : PriorityQueue) (spec : JobSpec) (id : String) (now : Time)
    (h : IsHeap pq.items) : IsHeap (Enqueue pq spec id now).2.items := by
  unfold Enqueue
  split
  · exact h
  · exact heapPush_isHeap _ _ h

theorem isHeap_nil : IsHeap [] := by
  intro c _ hc
  simp at hc

theorem runOps_isHeap (ops : List QueueOp) :
    ∀ pq : PriorityQueue, IsHeap pq.items → IsHeap (runOps pq ops).items := by
  induction ops with
  | nil => intro pq h; exact h
  | cons op rest ih =>
    intro pq h
    show IsHeap (runOps (applyOp pq op) rest).items
    apply ih
    cases op with
    | enqueue s => exact Enqueue_isHeap _ _ _ _ h
    | dequeue => exact DequeueBlocking_isHeap _ h
    | close => exact h

theorem prio_le_root (items : List JobItem) (a : JobItem) (h : IsHeap items)
    (h0 : items[0]? = some a) :
    ∀ e ∈ items.map JobItem.entry, e.2.1.Priority ≤ a.Spec.Priority := by
  intro e he
  obtain ⟨z, hz, rfl⟩ := List.mem_map.mp he
  obtain ⟨k, hk, hkz⟩ := List.getElem_of_mem hz
  have h1 := h.root_max k hk
  unfold prioAt at h1
  rw [List.getElem?_eq_getElem hk, h0, hkz] at h1
  exact h1

theorem dequeueN_drain : ∀ (k : Nat) (pq : PriorityQueue), pq.items.length = k →
    ∃ its : List JobItem,
      (dequeueN k pq).1 = its.map DequeueOutcome.returned ∧
      (dequeueN k pq).2 = { items := [], closed := pq.closed } ∧
      (its.map JobItem.entry).Perm (pq.items.map JobItem.entry) ∧
      (IsHeap pq.items → its.Pairwise fun x y => y.Spec.Priority ≤ x.Spec.Priority)
  | 0, pq, hk => by
    refine ⟨[], rfl, ?_, ?_, fun _ => List.Pairwise.nil⟩
    · have : pq.items = [] := List.length_eq_zero.mp hk
      cases pq
      simp_all [dequeueN]
    · have : pq.items = [] := List.length_eq_zero.mp hk
      simp [this]
  | k + 1, pq, hk => by
    have hne : pq.items ≠ [] := by
      intro h; rw [h] at hk; simp at hk
    obtain ⟨a, ha⟩ := exists_head_of_ne_nil _ hne
    obtain ⟨rest, hd, hlen, hperm, hheap⟩ := DequeueBlocking_nonempty pq a ha
    obtain ⟨its, h1, h2, h3, h4⟩ :=
      dequeueN_drain k { pq with items := rest } (by simp only; omega)
    refine ⟨{ a with Index := pq.items.length - 1 } :: its, ?_, ?_, ?_, ?_⟩
    · simp only [dequeueN, hd, h1, List.map_cons]
    · simp only [dequeueN, hd, h2]
    · simp only [List.map_cons]
      exact (List.Perm.cons _ h3).trans hperm
    · intro hh
      refine List.Pairwise.cons ?_ (h4 (hheap hh))
      intro y hy
      have hy1 : y.entry ∈ its.map JobItem.entry := List.mem_map_of_mem _ hy
      have hy2 : y.entry ∈ pq.items.map JobItem.entry :=
        hperm.subset (List.mem_cons_of_mem _ (h3.subset hy1))
      exact prio_le_root pq.items a hh ha _ hy2

theorem enqueueAll_open : ∀ (subs : List Submission) (pq : PriorityQueue),
    pq.closed = false →
    (enqueueAll pq subs).1 = subs.map (fun s => (s.id, true)) ∧
    (enqueueAll pq subs).2.closed = false ∧
    ((enqueueAll pq subs).2.items.map JobItem.entry).Perm
      (pq.items.map JobItem.entry ++ subs.map Submission.entry) ∧
    (IsHeap pq.items → IsHeap (enqueueAll pq subs).2.items)
  | [], pq, hc => by
    simp [enqueueAll, hc]
  | s :: rest, pq, hc => by
    have hE : Enqueue pq s.spec s.id s.now =
        ((s.id, true), { pq with items := heapPush pq.items ⟨s.id, s.spec, s.now, 0⟩ }) := by
      simp [Enqueue, hc]
    obtain ⟨h1, h2, h3, h4⟩ := enqueueAll_open rest (Enqueue pq s.spec s.id s.now).2
      (by rw [hE]; exact hc)
    refine ⟨?_, ?_, ?_, ?_⟩
    · simp only [enqueueAll, h1, List.map_cons]
      rw [hE]
    · simpa only [enqueueAll] using h2
    · simp only [enqueueAll]
      refine h3.trans ?_
      rw [hE]
      simp only [List.map_cons]
      have := heapPush_entry_perm pq.items
        { ID := s.id, Spec := s.spec, Inserted := s.now, Index := 0 }
      have h5 := List.Perm.append_right (List.map Submission.entry rest) this
      simpa [JobItem.entry, Submission.entry] using h5
    · intro hh
      simp only [enqueueAll]
      apply h4
      rw [hE]
      exact heapPush_isHeap _ _ hh

theorem PendingJobs_eq (pq : PriorityQueue) :
    PendingJobs pq = (pq.items.map JobItem.entry).map pendingRecord := by
  simp [PendingJobs, pendingRecord, JobItem.entry, Function.comp_def]


/-! ## The in-flight table and the informer loop -/

theorem Table.get?_set (t : Table) (k : String) (v : JobInfo) (k1 : String) :
    (t.set k v).get? k1 = if k1 = k then some v else t.get? k1 := by
  induction t with
  | nil =>
    by_cases h : k1 = k
    · subst h; simp [Table.set, Table.get?, List.lookup]
    · have h2 : (k1 == k) = false := by simpa using h
      simp [Table.set, Table.get?, List.lookup, h, h2]
  | cons e rest ih =>
    obtain ⟨k0, v0⟩ := e
    simp only [Table.get?] at ih ⊢
    by_cases h0 : k0 = k
    · subst h0
      by_cases h : k1 = k0
      · subst h; simp [Table.set, List.lookup]
      · have h2 : (k1 == k0) = false := by simpa using h
        simp [Table.set, List.lookup, h, h2]
    · by_cases h : k1 = k0
      · subst h
        have h3 : ¬ k1 = k := h0
        simp [Table.set, List.lookup, h0, h3]
      · have h2 : (k1 == k0) = false := by simpa using h
        simp only [Table.set, if_neg h0, List.lookup, h2]
        exact ih

theorem Table.length_set_of_get? (t : Table) (k : String) (v v0 : JobInfo)
    (h : t.get? k = some v0) : (t.set k v).length = t.length := by
  induction t with
  | nil => simp [Table.get?, List.lookup] at h
  | cons e rest ih =>
    obtain ⟨k1, v1⟩ := e
    by_cases h0 : k1 = k
    · simp [Table.set, h0]
    · have h2 : (k == k1) = false := by simpa using Ne.symm h0
      simp only [Table.get?, List.lookup, h2] at h
      simp only [Table.set, if_neg h0, List.length_cons]
      rw [ih h]

theorem Table.mem_set (t : Table) (k : String) (v : JobInfo) (e : String × JobInfo)
    (h : e ∈ t.set k v) : e ∈ t ∨ e = (k, v) := by
  induction t with
  | nil =>
    simp only [Table.set, List.mem_singleton] at h
    exact Or.inr h
  | cons e0 rest ih =>
    obtain ⟨k0, v0⟩ := e0
    by_cases h0 : k0 = k
    · simp only [Table.set, if_pos h0, List.mem_cons] at h
      rcases h with h | h
      · exact Or.inr h
      · exact Or.inl (List.mem_cons_of_mem _ h)
    · simp only [Table.set, if_neg h0, List.mem_cons] at h
      rcases h with h | h
      · exact Or.inl (h ▸ List.mem_cons_self _ _)
      · rcases ih h with h1 | h1
        · exact Or.inl (List.mem_cons_of_mem _ h1)
        · exact Or.inr h1

theorem Table.mem_of_get? (t : Table) (k : String) (v : JobInfo) (h : t.get? k = some v) :
    (k, v) ∈ t := by
  induction t with
  | nil => simp [Table.get?, List.lookup] at h
  | cons e rest ih =>
    obtain ⟨k1, v1⟩ := e
    by_cases h0 : k = k1
    · subst h0
      simp [Table.get?, List.lookup] at h
      subst h
      exact List.mem_cons_self _ _
    · have h2 : (k == k1) = false := by simpa using h0
      simp only [Table.get?, List.lookup, h2] at h
      exact List.mem_cons_of_mem _ (ih h)

theorem Table.mem_delete (t : Table) (k : String) (e : String × JobInfo) :
    e ∈ t.delete k ↔ e ∈ t ∧ e.1 ≠ k := by
  simp [Table.delete]

theorem deleteFirstMatch_subset (running : Table) (job : BatchJob) :
    ∀ (order : List (String × JobInfo)) (e : String × JobInfo),
      e ∈ deleteFirstMatch running job order → e ∈ running
  | [], e, h => h
  | (id, info) :: rest, e, h => by
    simp only [deleteFirstMatch] at h
    split at h
    · exact ((Table.mem_delete _ _ _).mp h).1
    · exact deleteFirstMatch_subset running job rest e h

theorem deleteFirstMatch_unique (running : Table) (job : BatchJob) (k : String)
    (info : JobInfo) :
    ∀ (order : List (String × JobInfo)), (k, info) ∈ order →
      matchesJob info job = true →
      (∀ e ∈ order, matchesJob e.2 job = true → e = (k, info)) →
      deleteFirstMatch running job order = running.delete k
  | [], h, _, _ => by simp at h
  | (id, i0) :: rest, hmem, hm, hu => by
    simp only [deleteFirstMatch]
    split
    · next hc =>
      have := hu (id, i0) (List.mem_cons_self _ _) hc
      simp only [Prod.mk.injEq] at this
      rw [this.1]
    · next hc =>
      have hne : (k, info) ≠ (id, i0) := by
        intro h
        simp only [Prod.mk.injEq] at h
        rw [← h.2] at hc
        exact hc hm
      have hmem1 : (k, info) ∈ rest := by
        rcases List.mem_cons.mp hmem with h | h
        · exact absurd h hne
        · exact h
      exact deleteFirstMatch_unique running job k info rest hmem1 hm
        (fun e he => hu e (List.mem_cons_of_mem _ he))

theorem deleteFirstMatch_split (running : Table) (job : BatchJob) (k : String)
    (info : JobInfo) (post : List (String × JobInfo)) :
    ∀ pre : List (String × JobInfo), (∀ e ∈ pre, matchesJob e.2 job = false) →
      matchesJob info job = true →
      deleteFirstMatch running job (pre ++ (k, info) :: post) = running.delete k
  | [], _, hm => by
    simp [deleteFirstMatch, hm]
  | (k0, i0) :: pre, hpre, hm => by
    have h0 : matchesJob i0 job = false := hpre (k0, i0) (List.mem_cons_self _ _)
    simp only [List.cons_append, deleteFirstMatch, h0]
    exact deleteFirstMatch_split running job k info post pre
      (fun e he => hpre e (List.mem_cons_of_mem _ he)) hm

theorem deleteFirstMatch_none (running : Table) (job : BatchJob) :
    ∀ order : List (String × JobInfo), (∀ e ∈ order, matchesJob e.2 job = false) →
      deleteFirstMatch running job order = running
  | [], _ => rfl
  | (k0, i0) :: rest, h => by
    have h0 : matchesJob i0 job = false := h (k0, i0) (List.mem_cons_self _ _)
    simp only [deleteFirstMatch, h0]
    exact deleteFirstMatch_none running job rest (fun e he => h e (List.mem_cons_of_mem _ he))

theorem Table.delete_of_not_mem (t : Table) (k : String)
    (h : k ∉ t.map Prod.fst) : t.delete k = t := by
  unfold Table.delete
  rw [List.filter_eq_self]
  intro e he
  have : e.1 ≠ k := fun hk => h (hk ▸ List.mem_map_of_mem Prod.fst he)
  simpa using this

theorem Table.delete_eq_erase (k : String) (info : JobInfo) :
    ∀ t : Table, (t.map Prod.fst).Nodup → (k, info) ∈ t →
      t.delete k = t.erase (k, info)
  | [], _, h => by simp at h
  | (k0, i0) :: rest, hn, hmem => by
    simp only [List.map_cons, List.nodup_cons] at hn
    obtain ⟨hk0, hn1⟩ := hn
    by_cases hk : k0 = k
    · subst hk
      have hi : i0 = info := by
        rcases List.mem_cons.mp hmem with h | h
        · simp only [Prod.mk.injEq] at h; exact h.2.symm
        · exact absurd (List.mem_map_of_mem Prod.fst h) hk0
      subst hi
      have h1 := Table.delete_of_not_mem rest k0 hk0
      simp only [Table.delete] at h1 ⊢
      simp [List.filter_cons, h1]
    · have hmem1 : (k, info) ∈ rest := by
        rcases List.mem_cons.mp hmem with h | h
        · simp only [Prod.mk.injEq] at h; exact absurd h.1.symm hk
        · exact h
      have ih := Table.delete_eq_erase k info rest hn1 hmem1
      have hne : ((k0, i0) == (k, info)) = false := by
        simp [hk]
      simp only [Table.delete] at ih ⊢
      rw [List.erase_cons, hne]
      simp [List.filter_cons, hk, ih]

/-! ## An invariant of the transition system -/

theorem queuedIds_eq (pq : PriorityQueue) :
    queuedIds pq = (pq.items.map JobItem.entry).map Prod.fst := by
  simp [queuedIds, JobItem.entry, Function.comp_def]

theorem queuedIds_Enqueue (pq : PriorityQueue) (spec : JobSpec) (id : String) (now : Time)
    (hc : pq.closed = false) :
    (queuedIds (Enqueue pq spec id now).2).Perm (id :: queuedIds pq) := by
  have hE : Enqueue pq spec id now =
      ((id, true), { pq with items := heapPush pq.items ⟨id, spec, now, 0⟩ }) := by
    simp [Enqueue, hc]
  rw [queuedIds_eq, queuedIds_eq, hE]
  have h := (heapPush_entry_perm pq.items ⟨id, spec, now, 0⟩).map Prod.fst
  refine h.trans ?_
  simp only [List.map_append, List.map_cons, List.map_nil, JobItem.entry]
  exact List.perm_append_singleton _ _

theorem DequeueBlocking_returned (pq pq1 : PriorityQueue) (item : JobItem)
    (h : DequeueBlocking pq = (DequeueOutcome.returned item, pq1)) :
    (item.ID :: queuedIds pq1).Perm (queuedIds pq) := by
  by_cases he : pq.items = []
  · cases hc : pq.closed
    · rw [DequeueBlocking_open_empty pq hc he] at h; cases h
    · rw [DequeueBlocking_closed_empty pq hc he] at h; cases h
  · obtain ⟨a, ha⟩ := exists_head_of_ne_nil _ he
    obtain ⟨rest, hd, _, hperm, _⟩ := DequeueBlocking_nonempty pq a ha
    rw [hd] at h
    simp only [Prod.mk.injEq, DequeueOutcome.returned.injEq] at h
    obtain ⟨h1, h2⟩ := h
    subst h1 h2
    rw [queuedIds_eq, queuedIds_eq]
    exact hperm.map Prod.fst

theorem submitJob_mem (running : Table) (ns : String) (item : JobItem)
    (create : BatchJob → Option String) (now : Time) (t : Table)
    (h : submitJob running ns item create now = some t) (e : String × JobInfo)
    (he : e ∈ t) :
    e ∈ running ∨ (e.1 = item.ID ∧ e.2.ID = (running.read item.ID).ID) := by
  unfold submitJob at h
  split at h
  · cases h
  · split at h
    · simp only [Option.some.injEq] at h
      subst h
      rcases Table.mem_set _ _ _ _ he with h1 | h1
      · exact Or.inl h1
      · subst h1; exact Or.inr ⟨rfl, rfl⟩
    · simp only [Option.some.injEq] at h
      subst h
      exact Or.inl he

theorem read_ID (running : Table) (k : String)
    (h : ∀ e ∈ running, e.2.ID = e.1 ∨ e.2.ID = "") :
    (running.read k).ID = k ∨ (running.read k).ID = "" := by
  unfold Table.read
  cases hg : running.get? k with
  | none => exact Or.inr rfl
  | some v => exact h _ (Table.mem_of_get? _ _ _ hg)

theorem Inv_initial (ns : String) : Inv (initial ns) := by
  refine ⟨?_, ?_, ?_, ?_, ?_⟩ <;> simp [initial, queuedIds, NewPriorityQueue]

theorem step_Inv (s s1 : System) (ev : Event) (hi : Inv s) (hs : step s ev = some s1) :
    Inv s1 := by
  obtain ⟨i1, i2, i3, i4, i5⟩ := hi
  cases ev with
  | enqueue spec id now =>
    simp only [step] at hs
    split at hs
    · cases hs; exact ⟨i1, i2, i3, i4, i5⟩
    · next hc =>
      split at hs
      · cases hs
      · next hf =>
        simp only [Option.some.injEq] at hs
        subst hs
        simp only [not_or, Bool.not_eq_false] at hf
        obtain ⟨hfresh, hshape⟩ := hf
        have hc1 : s.pq.closed = false := by simpa using hc
        have hp := queuedIds_Enqueue s.pq spec id now hc1
        have hnq : id ∉ queuedIds s.pq := fun h => hfresh (i2 _ h)
        refine ⟨?_, ?_, ?_, ?_, ?_⟩
        · exact hp.nodup_iff.mpr (List.nodup_cons.mpr ⟨hnq, i1⟩)
        · intro x hx
          rcases List.mem_cons.mp (hp.subset hx) with h | h
          · subst h; exact List.mem_cons_self _ _
          · exact List.mem_cons_of_mem _ (i2 _ h)
        · intro it hit
          obtain ⟨h1, h2⟩ := i3 it hit
          refine ⟨List.mem_cons_of_mem _ h1, ?_⟩
          intro hx
          rcases List.mem_cons.mp (hp.subset hx) with h | h
          · exact hfresh (h ▸ h1)
          · exact h2 h
        · intro e he
          obtain ⟨h1, h2, h3⟩ := i4 e he
          refine ⟨List.mem_cons_of_mem _ h1, ?_, h3⟩
          intro hx
          rcases List.mem_cons.mp (hp.subset hx) with h | h
          · exact hfresh (h ▸ h1)
          · exact h2 h
        · intro x hx
          rcases List.mem_cons.mp hx with h | h
          · subst h
            intro h0
            rw [h0] at hshape
            exact absurd hshape (by decide)
          · exact i5 _ h
  | workerDequeue =>
    simp only [step] at hs
    split at hs
    · next item pq1 hd =>
      simp only [Option.some.injEq] at hs
      subst hs
      have hp := DequeueBlocking_returned _ _ _ hd
      have hnd := hp.nodup_iff.mpr i1
      obtain ⟨hnot, hnd1⟩ := List.nodup_cons.mp hnd
      have hsub : ∀ x ∈ queuedIds pq1, x ∈ queuedIds s.pq :=
        fun x hx => hp.subset (List.mem_cons_of_mem _ hx)
      refine ⟨hnd1, fun x hx => i2 _ (hsub x hx), ?_, ?_, i5⟩
      · intro it hit
        simp only [List.cons_append, List.mem_cons] at hit
        rcases hit with h | h
        · subst h
          exact ⟨i2 _ (hp.subset (List.mem_cons_self _ _)), hnot⟩
        · obtain ⟨h1, h2⟩ := i3 it h
          exact ⟨h1, fun hx => h2 (hsub _ hx)⟩
      · intro e he
        obtain ⟨h1, h2, h3⟩ := i4 e he
        exact ⟨h1, fun hx => h2 (hsub _ hx), h3⟩
    · cases hs; exact ⟨i1, i2, i3, i4, i5⟩
    · cases hs
    · cases hs
  | workerRecord item now =>
    simp only [step] at hs
    split at hs
    · next hmem =>
      simp only [Option.some.injEq] at hs
      subst hs
      have hitem := i3 item (List.mem_append_left _ hmem)
      refine ⟨i1, i2, ?_, ?_, i5⟩
      · intro it hit
        simp only [List.mem_append, List.mem_cons] at hit
        rcases hit with h | h | h
        · exact i3 it (List.mem_append_left _ (List.mem_of_mem_erase h))
        · subst h; exact hitem
        · exact i3 it (List.mem_append_right _ h)
      · intro e he
        rcases Table.mem_set _ _ _ _ he with h | h
        · exact i4 e h
        · subst h
          exact ⟨hitem.1, hitem.2, Or.inl rfl⟩
    · cases hs
  | dispatchSucceeds item =>
    simp only [step] at hs
    split at hs
    · next hmem =>
      split at hs
      · next t ht =>
        simp only [Option.some.injEq] at hs
        subst hs
        have hitem := i3 item (List.mem_append_right _ hmem)
        refine ⟨i1, i2, ?_, ?_, i5⟩
        · intro it hit
          simp only [List.mem_append] at hit
          rcases hit with h | h
          · exact i3 it (List.mem_append_left _ h)
          · exact i3 it (List.mem_append_right _ (List.mem_of_mem_erase h))
        · intro e he
          rcases submitJob_mem _ _ _ _ _ _ ht e he with h | ⟨h1, h2⟩
          · exact i4 e h
          · refine ⟨h1 ▸ hitem.1, h1 ▸ hitem.2, ?_⟩
            rw [h2, h1]
            exact read_ID _ _ (fun e he => (i4 e he).2.2)
      · cases hs
    · cases hs
  | dispatchFails item err now =>
    simp only [step] at hs
    split at hs
    · next hmem =>
      split at hs
      · next t ht =>
        simp only [Option.some.injEq] at hs
        subst hs
        have hitem := i3 item (List.mem_append_right _ hmem)
        refine ⟨i1, i2, ?_, ?_, i5⟩
        · intro it hit
          simp only [List.mem_append] at hit
          rcases hit with h | h
          · exact i3 it (List.mem_append_left _ h)
          · exact i3 it (List.mem_append_right _ (List.mem_of_mem_erase h))
        · intro e he
          rcases submitJob_mem _ _ _ _ _ _ ht e he with h | ⟨h1, h2⟩
          · exact i4 e h
          · refine ⟨h1 ▸ hitem.1, h1 ▸ hitem.2, ?_⟩
            rw [h2, h1]
            exact read_ID _ _ (fun e he => (i4 e he).2.2)
      · cases hs
    · cases hs
  | added job =>
    simp only [step, AddFunc, Option.some.injEq] at hs
    subst hs
    exact ⟨i1, i2, i3, i4, i5⟩
  | updated job order =>
    simp only [step] at hs
    split at hs
    · simp only [Option.some.injEq] at hs
      subst hs
      refine ⟨i1, i2, i3, ?_, i5⟩
      intro e he
      apply i4
      simp only [UpdateFunc] at he
      split at he
      · exact deleteFirstMatch_subset _ _ _ _ he
      · exact he
    · cases hs
  | deleted job order =>
    simp only [step] at hs
    split at hs
    · simp only [Option.some.injEq] at hs
      subst hs
      refine ⟨i1, i2, i3, ?_, i5⟩
      intro e he
      exact i4 e (deleteFirstMatch_subset _ _ _ _ he)
    · cases hs
  | close =>
    simp only [step, Option.some.injEq] at hs
    subst hs
    exact ⟨i1, i2, i3, i4, i5⟩

theorem run_Inv : ∀ (evs : List Event) (s s1 : System), Inv s → run s evs = some s1 → Inv s1
  | [], s, s1, hi, h => by
    simp only [run, Option.some.injEq] at h
    exact h ▸ hi
  | ev :: rest, s, s1, hi, h => by
    simp only [run] at h
    split at h
    · next s2 hs => exact run_Inv rest s2 s1 (step_Inv s s2 ev hi hs) h
    · cases h

/-- A whole iteration of `workerLoop` is the dequeue step followed by the record step. -/
theorem workerLoop_two_steps (s : System) (now : Time) (item : JobItem)
    (pq1 : PriorityQueue) (t : Table)
    (h : workerLoop s.pq s.running now = (DequeueOutcome.returned item, pq1, t)) :
    run s [Event.workerDequeue, Event.workerRecord item now] =
      some { s with pq := pq1, running := t, dispatching := item :: s.dispatching } := by
  unfold workerLoop at h
  split at h
  · next jobItem pq2 hd =>
    simp only [Prod.mk.injEq, DequeueOutcome.returned.injEq] at h
    obtain ⟨h1, h2, h3⟩ := h
    subst h1 h2 h3
    simp [run, step, hd]
  · next outcome pq2 hne hd =>
    simp only [Prod.mk.injEq] at h
    obtain ⟨h1, h2, _⟩ := h
    subst h1 h2
    exact (hne item rfl).elim

/-! ## The priority queue: ordering, no loss, close, rejection -/

/-- C1: the entries returned by draining a queue filled from empty come out with
non-increasing priority, and in every queue state reachable from the empty queue a
`DequeueBlocking` on a non-empty queue returns an entry whose priority is at least that
of every entry left. -/
theorem priority_ordering (subs : List Submission) (ops : List QueueOp) :
    (∃ its : List JobItem,
      (dequeueN subs.length (enqueueAll NewPriorityQueue subs).2).1 =
        its.map DequeueOutcome.returned ∧
      its.length = subs.length ∧
      its.Pairwise fun x y => y.Spec.Priority ≤ x.Spec.Priority) ∧
    ((runOps NewPriorityQueue ops).items ≠ [] →
      ∃ it q, DequeueBlocking (runOps NewPriorityQueue ops) = (DequeueOutcome.returned it, q) ∧
        ∀ x ∈ q.items, x.Spec.Priority ≤ it.Spec.Priority) := by
  constructor
  · obtain ⟨_, _, h3, h4⟩ := enqueueAll_open subs NewPriorityQueue rfl
    have hlen : (enqueueAll NewPriorityQueue subs).2.items.length = subs.length := by
      have := h3.length_eq
      simpa [NewPriorityQueue] using this
    obtain ⟨its, d1, _, d3, d4⟩ := dequeueN_drain subs.length _ hlen
    refine ⟨its, d1, ?_, d4 (h4 isHeap_nil)⟩
    have := d3.length_eq
    simpa [hlen] using this
  · intro hne
    have hh : IsHeap (runOps NewPriorityQueue ops).items := runOps_isHeap ops _ isHeap_nil
    obtain ⟨a, ha⟩ := exists_head_of_ne_nil _ hne
    obtain ⟨rest, hd, _, hperm, _⟩ := DequeueBlocking_nonempty _ a ha
    refine ⟨_, _, hd, ?_⟩
    intro x hx
    have hx1 : x.entry ∈ rest.map JobItem.entry := List.mem_map_of_mem _ hx
    exact prio_le_root _ a hh ha _ (hperm.subset (List.mem_cons_of_mem _ hx1))

/-- Witness of C1: the queue after A and B were enqueued. -/
theorem priority_ordering_witness :
    (runOps NewPriorityQueue [QueueOp.enqueue scenarioA, QueueOp.enqueue scenarioB]).items ≠ [] ∧
    ∃ it q, DequeueBlocking
        (runOps NewPriorityQueue [QueueOp.enqueue scenarioA, QueueOp.enqueue scenarioB]) =
          (DequeueOutcome.returned it, q) ∧
        ∀ x ∈ q.items, x.Spec.Priority ≤ it.Spec.Priority :=
  ⟨by decide,
   (priority_ordering [scenarioA, scenarioB, scenarioC]
      [QueueOp.enqueue scenarioA, QueueOp.enqueue scenarioB]).2 (by decide)⟩

/-- C2: after `n` submissions to an open, empty queue, the next `n` `DequeueBlocking`
calls return entries that carry, as a permutation, exactly the ids `Enqueue` returned,
each with the spec (and timestamp) submitted under it, and the queue is empty
afterwards. -/
theorem no_loss (subs : List Submission) :
    (enqueueAll NewPriorityQueue subs).1 = subs.map (fun s => (s.id, true)) ∧
    ∃ its : List JobItem,
      (dequeueN subs.length (enqueueAll NewPriorityQueue subs).2).1 =
        its.map DequeueOutcome.returned ∧
      (its.map fun it => it.ID).Perm ((enqueueAll NewPriorityQueue subs).1.map Prod.fst) ∧
      (its.map JobItem.entry).Perm (subs.map Submission.entry) ∧
      (dequeueN subs.length (enqueueAll NewPriorityQueue subs).2).2.items = [] := by
  obtain ⟨h1, _, h3, _⟩ := enqueueAll_open subs NewPriorityQueue rfl
  have h3a : ((enqueueAll NewPriorityQueue subs).2.items.map JobItem.entry).Perm
      (subs.map Submission.entry) := by simpa [NewPriorityQueue] using h3
  have hlen : (enqueueAll NewPriorityQueue subs).2.items.length = subs.length := by
    simpa using h3a.length_eq
  obtain ⟨its, d1, d2, d3, _⟩ := dequeueN_drain subs.length _ hlen
  have hp : (its.map JobItem.entry).Perm (subs.map Submission.entry) := d3.trans h3a
  refine ⟨h1, its, d1, ?_, hp, ?_⟩
  · have := hp.map Prod.fst
    rw [h1]
    simpa [JobItem.entry, Submission.entry, Function.comp_def] using this
  · rw [d2]

/-- C3: closing a queue that holds `k` entries leaves them poppable: the next `k`
`DequeueBlocking` calls each return an entry, together exactly the queued entries, every
later call returns `nil`, and in any queue state `DequeueBlocking` returns `nil` exactly
when the queue is closed and empty. -/
theorem close_drains (pq : PriorityQueue) :
    (∃ its : List JobItem,
      (dequeueN pq.items.length (Close pq)).1 = its.map DequeueOutcome.returned ∧
      its.length = pq.items.length ∧
      (its.map JobItem.entry).Perm (pq.items.map JobItem.entry)) ∧
    (∀ m, (dequeueN m (dequeueN pq.items.length (Close pq)).2).1 =
      List.replicate m DequeueOutcome.returnedNil) ∧
    (∀ q : PriorityQueue,
      (DequeueBlocking q).1 = DequeueOutcome.returnedNil ↔ (q.closed = true ∧ q.items = [])) := by
  obtain ⟨its, d1, d2, d3, _⟩ := dequeueN_drain pq.items.length (Close pq) rfl
  refine ⟨⟨its, d1, ?_, d3⟩, ?_, ?_⟩
  · simpa [Close] using d3.length_eq
  · intro m
    rw [d2]
    induction m with
    | zero => rfl
    | succ m ih =>
      simp only [dequeueN, List.replicate_succ]
      rw [DequeueBlocking_closed_empty _ rfl rfl]
      exact congrArg _ ih
  · intro q
    constructor
    · intro h
      by_cases he : q.items = []
      · cases hc : q.closed
        · rw [DequeueBlocking_open_empty q hc he] at h; cases h
        · exact ⟨rfl, he⟩
      · obtain ⟨a, ha⟩ := exists_head_of_ne_nil _ he
        obtain ⟨rest, hd, _⟩ := DequeueBlocking_nonempty q a ha
        rw [hd] at h; cases h
    · rintro ⟨hc, he⟩
      rw [DequeueBlocking_closed_empty q hc he]

/-- C4: `Enqueue` reports rejection (`ok = false`, empty id) exactly when the queue is
closed; a rejected call leaves the queue as it was, and an accepted call returns the new
id and leaves the queue open with its previous entries plus the one new entry carrying
that id and the submitted spec. -/
theorem enqueue_rejects_iff_closed (pq : PriorityQueue) (spec : JobSpec) (id : String)
    (now : Time) :
    ((Enqueue pq spec id now).1.2 = false ↔ pq.closed = true) ∧
    (pq.closed = true →
      (Enqueue pq spec id now).1 = ("", false) ∧ (Enqueue pq spec id now).2 = pq) ∧
    (pq.closed = false →
      (Enqueue pq spec id now).1 = (id, true) ∧
      (Enqueue pq spec id now).2.closed = false ∧
      (Enqueue pq spec id now).2.items.length = pq.items.length + 1 ∧
      ((Enqueue pq spec id now).2.items.map JobItem.entry).Perm
        (pq.items.map JobItem.entry ++ [(id, spec, now)])) := by
  cases hc : pq.closed
  · have hE : Enqueue pq spec id now =
        ((id, true), { pq with items := heapPush pq.items ⟨id, spec, now, 0⟩ }) := by
      simp [Enqueue, hc]
    refine ⟨?_, ?_, ?_⟩
    · rw [hE]; simp
    · intro h; cases h
    · intro _
      rw [hE]
      refine ⟨rfl, hc, heapPush_length _ _, ?_⟩
      exact heapPush_entry_perm pq.items ⟨id, spec, now, 0⟩
  · have hE : Enqueue pq spec id now = (("", false), pq) := by
      simp [Enqueue, hc]
    refine ⟨?_, ?_, ?_⟩
    · rw [hE]; simp
    · intro _; rw [hE]; exact ⟨rfl, rfl⟩
    · intro h; cases h

/-- Witness of C4: a closed empty queue rejects, an open empty queue accepts. -/
theorem enqueue_rejects_iff_closed_witness :
    ((Close NewPriorityQueue).closed = true ∧
      (Enqueue (Close NewPriorityQueue) scenarioA.spec scenarioA.id 1).1 = ("", false) ∧
      (Enqueue (Close NewPriorityQueue) scenarioA.spec scenarioA.id 1).2 =
        Close NewPriorityQueue) ∧
    (NewPriorityQueue.closed = false ∧
      (Enqueue NewPriorityQueue scenarioA.spec scenarioA.id 1).1 = (scenarioA.id, true) ∧
      (Enqueue NewPriorityQueue scenarioA.spec scenarioA.id 1).2.closed = false ∧
      (Enqueue NewPriorityQueue scenarioA.spec scenarioA.id 1).2.items.length =
        NewPriorityQueue.items.length + 1 ∧
      ((Enqueue NewPriorityQueue scenarioA.spec scenarioA.id 1).2.items.map JobItem.entry).Perm
        (NewPriorityQueue.items.map JobItem.entry ++ [(scenarioA.id, scenarioA.spec, 1)])) :=
  ⟨⟨rfl, (enqueue_rejects_iff_closed (Close NewPriorityQueue) scenarioA.spec
      scenarioA.id 1).2.1 rfl⟩,
   ⟨rfl, (enqueue_rejects_iff_closed NewPriorityQueue scenarioA.spec scenarioA.id 1).2.2 rfl⟩⟩

/-! ## The priority queue: order among equal priorities, pending snapshot -/

/-- C5 fails on the scenario of the specification: A (5), B (10), C (5) come out as
B, C, A, so C precedes A. -/
theorem fifo_tiebreak_counterexample :
    (returnedItems (dequeueN 3
        (enqueueAll NewPriorityQueue [scenarioA, scenarioB, scenarioC]).2).1).map
      (fun it => it.Spec.Name) = ["B", "C", "A"] ∧
    (returnedItems (dequeueN 3
        (enqueueAll NewPriorityQueue [scenarioA, scenarioB, scenarioC]).2).1).map
      (fun it => it.Spec.Name) ≠ ["B", "A", "C"] := by
  constructor <;> decide

/-- C5, amended: draining a queue filled from empty returns every enqueued entry exactly
once and never an entry after one of strictly lower priority; among equal priorities the
order is that of the heap layout, and A (5), B (10), C (5) come out as B, C, A. -/
theorem tiebreak_follows_heap_layout (subs : List Submission) :
    (∃ its : List JobItem,
      (dequeueN subs.length (enqueueAll NewPriorityQueue subs).2).1 =
        its.map DequeueOutcome.returned ∧
      (its.map JobItem.entry).Perm (subs.map Submission.entry) ∧
      its.Pairwise fun x y => ¬ x.Spec.Priority < y.Spec.Priority) ∧
    (returnedItems (dequeueN 3
        (enqueueAll NewPriorityQueue [scenarioA, scenarioB, scenarioC]).2).1).map
      JobItem.entry = [scenarioB.entry, scenarioC.entry, scenarioA.entry] := by
  constructor
  · obtain ⟨_, _, h3, h4⟩ := enqueueAll_open subs NewPriorityQueue rfl
    have h3a : ((enqueueAll NewPriorityQueue subs).2.items.map JobItem.entry).Perm
        (subs.map Submission.entry) := by simpa [NewPriorityQueue] using h3
    have hlen : (enqueueAll NewPriorityQueue subs).2.items.length = subs.length := by
      simpa using h3a.length_eq
    obtain ⟨its, d1, _, d3, d4⟩ := dequeueN_drain subs.length _ hlen
    refine ⟨its, d1, d3.trans h3a, ?_⟩
    exact (d4 (h4 isHeap_nil)).imp (fun h => not_lt.mpr h)
  · decide

/-- C9 fails: after A (5) and then B (10) are enqueued, the snapshot lists B before
A. -/
theorem pending_order_counterexample :
    PendingJobs (enqueueAll NewPriorityQueue [scenarioA, scenarioB]).2 =
      [pendingRecord scenarioB.entry, pendingRecord scenarioA.entry] ∧
    PendingJobs (enqueueAll NewPriorityQueue [scenarioA, scenarioB]).2 ≠
      [pendingRecord scenarioA.entry, pendingRecord scenarioB.entry] := by
  constructor <;> decide

/-- C9, amended: `PendingJobs` (and `List`) returns one record per queued entry, each
with status Pending and the entry's id, name, priority and insertion time, in the order
of the heap slice `pq.items`: record `i` is built from `pq.items[i]`.  That order is a
permutation of the enqueue order in which no record outranks the record at position
`(i - 1) / 2`, so the first record has the highest priority; after A (5), B (10), C (5)
it is B, A, C. -/
theorem pending_snapshot (subs : List Submission) :
    PendingJobs (enqueueAll NewPriorityQueue subs).2 =
      (enqueueAll NewPriorityQueue subs).2.items.map (fun it => pendingRecord it.entry) ∧
    (enqueueAll NewPriorityQueue subs).2.List =
      PendingJobs (enqueueAll NewPriorityQueue subs).2 ∧
    (PendingJobs (enqueueAll NewPriorityQueue subs).2).length = subs.length ∧
    (PendingJobs (enqueueAll NewPriorityQueue subs).2).Perm
      (subs.map fun s => pendingRecord s.entry) ∧
    (∀ r ∈ PendingJobs (enqueueAll NewPriorityQueue subs).2, r.Status = JobStatus.Pending) ∧
    (∀ (i : Nat) (r p : JobInfo), 0 < i →
      (PendingJobs (enqueueAll NewPriorityQueue subs).2)[i]? = some r →
      (PendingJobs (enqueueAll NewPriorityQueue subs).2)[(i - 1) / 2]? = some p →
      r.Priority ≤ p.Priority) ∧
    (∀ r0 ∈ (PendingJobs (enqueueAll NewPriorityQueue subs).2).head?,
      ∀ r ∈ PendingJobs (enqueueAll NewPriorityQueue subs).2, r.Priority ≤ r0.Priority) ∧
    PendingJobs (enqueueAll NewPriorityQueue [scenarioA, scenarioB, scenarioC]).2 =
      [pendingRecord scenarioB.entry, pendingRecord scenarioA.entry,
        pendingRecord scenarioC.entry] := by
  obtain ⟨_, _, h3, h4⟩ := enqueueAll_open subs NewPriorityQueue rfl
  have h3a : ((enqueueAll NewPriorityQueue subs).2.items.map JobItem.entry).Perm
      (subs.map Submission.entry) := by simpa [NewPriorityQueue] using h3
  have hh := h4 isHeap_nil
  generalize (enqueueAll NewPriorityQueue subs).2 = q at h3a hh ⊢
  have hperm : (PendingJobs q).Perm (subs.map fun s => pendingRecord s.entry) := by
    rw [PendingJobs_eq]
    have := h3a.map pendingRecord
    simpa [Function.comp_def] using this
  refine ⟨?_, rfl, ?_, hperm, ?_, ?_, ?_, by decide⟩
  · rw [PendingJobs_eq, List.map_map]; rfl
  · simpa using hperm.length_eq
  · intro r hr
    rw [PendingJobs_eq] at hr
    simp only [List.map_map, List.mem_map, Function.comp_apply] at hr
    obtain ⟨_, _, rfl⟩ := hr
    rfl
  · intro i r p hi hr hp
    have e1 : PendingJobs q = q.items.map (fun it => pendingRecord it.entry) := by
      rw [PendingJobs_eq, List.map_map]; rfl
    rw [e1, List.getElem?_map] at hr hp
    cases hxi : q.items[i]? with
    | none => rw [hxi] at hr; cases hr
    | some a =>
      cases hxp : q.items[(i - 1) / 2]? with
      | none => rw [hxp] at hp; cases hp
      | some b =>
        rw [hxi] at hr
        rw [hxp] at hp
        simp only [Option.map_some', Option.some.injEq] at hr hp
        subst hr hp
        have hil : i < q.items.length := by
          rcases Nat.lt_or_ge i q.items.length with h | h
          · exact h
          · rw [List.getElem?_eq_none h] at hxi; cases hxi
        have := hh i hi hil
        unfold prioAt at this
        rw [hxi, hxp] at this
        exact this
  · intro r0 hr0 r hr
    rw [PendingJobs_eq] at hr hr0
    cases hq : q.items with
    | nil => rw [hq] at hr0; simp at hr0
    | cons a t =>
      have ha : q.items[0]? = some a := by rw [hq]; simp
      rw [hq] at hr0
      simp only [List.map_cons, List.head?_cons, Option.mem_def, Option.some.injEq] at hr0
      subst hr0
      obtain ⟨e, he, rfl⟩ := List.mem_map.mp hr
      exact prio_le_root q.items a hh ha e he

/-- Witness of C9, amended: the snapshot after A, B and C were enqueued. -/
theorem pending_snapshot_witness :
    (pendingRecord scenarioA.entry ∈
        PendingJobs (enqueueAll NewPriorityQueue [scenarioA, scenarioB, scenarioC]).2 ∧
      (pendingRecord scenarioA.entry).Status = JobStatus.Pending) ∧
    ((0 < 2 ∧
      (PendingJobs (enqueueAll NewPriorityQueue [scenarioA, scenarioB, scenarioC]).2)[2]? =
        some (pendingRecord scenarioC.entry) ∧
      (PendingJobs
        (enqueueAll NewPriorityQueue [scenarioA, scenarioB, scenarioC]).2)[(2 - 1) / 2]? =
        some (pendingRecord scenarioB.entry)) ∧
      (pendingRecord scenarioC.entry).Priority ≤ (pendingRecord scenarioB.entry).Priority) ∧
    ((pendingRecord scenarioB.entry ∈
        (PendingJobs (enqueueAll NewPriorityQueue [scenarioA, scenarioB, scenarioC]).2).head? ∧
      pendingRecord scenarioA.entry ∈
        PendingJobs (enqueueAll NewPriorityQueue [scenarioA, scenarioB, scenarioC]).2) ∧
      (pendingRecord scenarioA.entry).Priority ≤ (pendingRecord scenarioB.entry).Priority) :=
  ⟨⟨by decide,
    (pending_snapshot [scenarioA, scenarioB, scenarioC]).2.2.2.2.1 _ (by decide)⟩,
   ⟨⟨by decide, by decide, by decide⟩,
    (pending_snapshot [scenarioA, scenarioB, scenarioC]).2.2.2.2.2.1 2 _ _ (by decide)
      (by decide) (by decide)⟩,
   ⟨⟨by decide, by decide⟩,
    (pending_snapshot [scenarioA, scenarioB, scenarioC]).2.2.2.2.2.2.1 _ (by decide) _
      (by decide)⟩⟩

/-! ## The worker pool and the informer -/

/-- C6: when the table holds a record under the item's id and the backend create call
fails with error text `e`, `submitJob` leaves under that id a record with status Failed,
`ErrorMsg = e`, a non-null `FinishedAt`, and the previous ID, Name, Priority, CreatedAt
and StartedAt; the record is not removed and the records under all other ids are as
before. -/
theorem dispatch_failure_marks_failed (running : Table) (ns : String) (item : JobItem)
    (create : BatchJob → Option String) (now : Time) (e : String) (job : BatchJob)
    (old : JobInfo)
    (hold : running.get? item.ID = some old)
    (hjob : buildJob ns item = some job)
    (hfail : create job = some e) :
    ∃ t r, submitJob running ns item create now = some t ∧
      t.get? item.ID = some r ∧
      r.Status = JobStatus.Failed ∧ r.ErrorMsg = e ∧ r.FinishedAt = some now ∧
      r.FinishedAt ≠ none ∧
      r.ID = old.ID ∧ r.Name = old.Name ∧ r.Priority = old.Priority ∧
      r.CreatedAt = old.CreatedAt ∧ r.StartedAt = old.StartedAt ∧
      (∀ k, k ≠ item.ID → t.get? k = running.get? k) ∧
      t.length = running.length := by
  have hread : running.read item.ID = old := by simp [Table.read, hold]
  refine ⟨running.set item.ID
      { old with Status := JobStatus.Failed, ErrorMsg := e, FinishedAt := some now },
    { old with Status := JobStatus.Failed, ErrorMsg := e, FinishedAt := some now },
    ?_, ?_, rfl, rfl, rfl, ?_, rfl, rfl, rfl, rfl, rfl, ?_, ?_⟩
  · simp only [submitJob, hjob, hfail, hread]
  · rw [Table.get?_set, if_pos rfl]
  · simp
  · intro k hk
    rw [Table.get?_set, if_neg hk]
  · exact Table.length_set_of_get? _ _ _ _ hold

/-- Witness of C6: the record of "build" after its create call fails. -/
theorem dispatch_failure_marks_failed_witness :
    (Table.get? [(buildId, runningRecord buildItem 2)] buildItem.ID =
        some (runningRecord buildItem 2) ∧
      buildJob "default" buildItem = some buildResource ∧
      (fun _ => some "connection refused" : BatchJob → Option String) buildResource =
        some "connection refused") ∧
    ∃ t r, submitJob [(buildId, runningRecord buildItem 2)] "default" buildItem
        (fun _ => some "connection refused") 3 = some t ∧
      t.get? buildItem.ID = some r ∧
      r.Status = JobStatus.Failed ∧ r.ErrorMsg = "connection refused" ∧
      r.FinishedAt = some 3 ∧ r.FinishedAt ≠ none ∧
      r.ID = (runningRecord buildItem 2).ID ∧ r.Name = (runningRecord buildItem 2).Name ∧
      r.Priority = (runningRecord buildItem 2).Priority ∧
      r.CreatedAt = (runningRecord buildItem 2).CreatedAt ∧
      r.StartedAt = (runningRecord buildItem 2).StartedAt ∧
      (∀ k, k ≠ buildItem.ID →
        t.get? k = Table.get? [(buildId, runningRecord buildItem 2)] k) ∧
      t.length = [(buildId, runningRecord buildItem 2)].length :=
  ⟨⟨by decide, by decide, rfl⟩,
   dispatch_failure_marks_failed [(buildId, runningRecord buildItem 2)] "default" buildItem
     (fun _ => some "connection refused") 3 "connection refused" buildResource
     (runningRecord buildItem 2) (by decide) (by decide) rfl⟩

/-- C7 fails when another record matches by name: with the records of
"build" and of the later job named "build-1b4e28ba" both in the table, the Updated
notification of the first job's resource (one success, labelled with the first job's id)
removes the second record when the map visits it first, and the first job's record stays
in the table. -/
theorem update_name_collision_counterexample :
    buildJob "default" buildItem = some buildResource ∧
    0 < buildResourceDone.Succeeded ∧
    buildResourceDone.label "kubeserver/job-id" = buildId ∧
    (run (initial "default") nameCollisionTrace).map (fun s => s.running) =
      some [(buildId, runningRecord buildItem 2)] ∧
    (runningRecord buildItem 2).ID = buildId ∧
    runningRecord buildItem 2 ∈
      RunningJobs (UpdateFunc
        [(buildId, runningRecord buildItem 2), (cloneId, runningRecord cloneItem 6)]
        [(cloneId, runningRecord cloneItem 6), (buildId, runningRecord buildItem 2)]
        buildResourceDone) := by
  refine ⟨?_, ?_, ?_, ?_, ?_, ?_⟩ <;> decide

/-- C7, amended: on an Updated notification that reports a success count above zero the
handler deletes the key of the first record, in visiting order, that the notification
matches by name or by id, and nothing else (one record, as map keys are distinct); it
leaves the table as it is when no record matches.  So when the `kubeserver/job-id` label
is the id of a record of the table and that record is the only one the notification
matches, then under every visiting order the table (hence `RunningJobs`) holds no record
with that id afterwards. -/
theorem update_success_removes_first_match (running : Table)
    (order : List (String × JobInfo)) (job : BatchJob)
    (hs : 0 < job.Succeeded)
    (ho : order.Perm running) :
    (∀ (pre post : List (String × JobInfo)) (k : String) (info : JobInfo),
      order = pre ++ (k, info) :: post →
      (∀ e ∈ pre, matchesJob e.2 job = false) →
      matchesJob info job = true →
      UpdateFunc running order job = running.delete k ∧
      (∀ e, e ∈ UpdateFunc running order job ↔ e ∈ running ∧ e.1 ≠ k) ∧
      ((running.map Prod.fst).Nodup →
        UpdateFunc running order job = running.erase (k, info) ∧
        (UpdateFunc running order job).length + 1 = running.length)) ∧
    ((∀ e ∈ order, matchesJob e.2 job = false) → UpdateFunc running order job = running) ∧
    (∀ (k : String) (info : JobInfo),
      (k, info) ∈ running →
      info.ID = job.label "kubeserver/job-id" →
      (∀ e ∈ running, matchesJob e.2 job = true → e = (k, info)) →
      UpdateFunc running order job = running.delete k ∧
      (∀ e ∈ UpdateFunc running order job, e.2.ID ≠ job.label "kubeserver/job-id") ∧
      (∀ order1 : List (String × JobInfo), order1.Perm (UpdateFunc running order job) →
        ∀ r ∈ RunningJobs order1, r.ID ≠ job.label "kubeserver/job-id")) := by
  have hcond : (decide (job.Succeeded > 0) || decide (job.Failed > 0)) = true := by
    simp [hs]
  have hU : UpdateFunc running order job = deleteFirstMatch running job order := by
    simp only [UpdateFunc, hcond, if_true]
  refine ⟨?_, ?_, ?_⟩
  · intro pre post k info hsplit hpre hm
    have hd : UpdateFunc running order job = running.delete k := by
      rw [hU, hsplit]
      exact deleteFirstMatch_split running job k info post pre hpre hm
    refine ⟨hd, ?_, ?_⟩
    · intro e
      rw [hd]
      exact Table.mem_delete _ _ _
    · intro hn
      have hmem : (k, info) ∈ running :=
        ho.subset (by rw [hsplit]; exact List.mem_append_right _ (List.mem_cons_self _ _))
      have he := Table.delete_eq_erase k info running hn hmem
      refine ⟨hd.trans he, ?_⟩
      rw [hd, he, List.length_erase_of_mem hmem]
      have : 0 < running.length := List.length_pos_of_mem hmem
      omega
  · intro hnone
    rw [hU]
    exact deleteFirstMatch_none running job order hnone
  · intro k info hmem hid huniq
    have hm : matchesJob info job = true := by
      simp [matchesJob, hid]
    have hd : UpdateFunc running order job = running.delete k := by
      rw [hU]
      exact deleteFirstMatch_unique running job k info order (ho.symm.subset hmem) hm
        (fun e he => huniq e (ho.subset he))
    have hno : ∀ e ∈ UpdateFunc running order job,
        e.2.ID ≠ job.label "kubeserver/job-id" := by
      intro e he hID
      rw [hd] at he
      obtain ⟨h1, h2⟩ := (Table.mem_delete _ _ _).mp he
      have hme : matchesJob e.2 job = true := by simp [matchesJob, hID]
      have := huniq e h1 hme
      exact h2 (by rw [this])
    refine ⟨hd, hno, ?_⟩
    intro order1 h1 r hr
    obtain ⟨e, he, rfl⟩ := List.mem_map.mp hr
    exact hno e (h1.subset he)

/-- Witness of C7, amended.  On the table with the records of "build" and of the job
named "build-1b4e28ba", visited second record first, the handler removes the second
record only; on the table with the records of "build" and "lint", where one record
matches, the record of "build" is gone whichever record is visited first. -/
theorem update_success_removes_first_match_witness :
    ((0 < buildResourceDone.Succeeded ∧
      List.Perm [(cloneId, runningRecord cloneItem 6), (buildId, runningRecord buildItem 2)]
        [(buildId, runningRecord buildItem 2), (cloneId, runningRecord cloneItem 6)] ∧
      [(cloneId, runningRecord cloneItem 6), (buildId, runningRecord buildItem 2)] =
        [] ++ (cloneId, runningRecord cloneItem 6) :: [(buildId, runningRecord buildItem 2)] ∧
      (∀ e ∈ ([] : List (String × JobInfo)), matchesJob e.2 buildResourceDone = false) ∧
      matchesJob (runningRecord cloneItem 6) buildResourceDone = true ∧
      (List.map Prod.fst
        [(buildId, runningRecord buildItem 2), (cloneId, runningRecord cloneItem 6)]).Nodup) ∧
     UpdateFunc [(buildId, runningRecord buildItem 2), (cloneId, runningRecord cloneItem 6)]
        [(cloneId, runningRecord cloneItem 6), (buildId, runningRecord buildItem 2)]
        buildResourceDone =
      List.erase [(buildId, runningRecord buildItem 2), (cloneId, runningRecord cloneItem 6)]
        (cloneId, runningRecord cloneItem 6) ∧
     UpdateFunc [(buildId, runningRecord buildItem 2), (cloneId, runningRecord cloneItem 6)]
        [(cloneId, runningRecord cloneItem 6), (buildId, runningRecord buildItem 2)]
        buildResourceDone = [(buildId, runningRecord buildItem 2)]) ∧
    ((0 < buildResourceDone.Succeeded ∧
      List.Perm [(lintId, runningRecord lintItem 8), (buildId, runningRecord buildItem 2)]
        [(buildId, runningRecord buildItem 2), (lintId, runningRecord lintItem 8)] ∧
      (buildId, runningRecord buildItem 2) ∈
        [(buildId, runningRecord buildItem 2), (lintId, runningRecord lintItem 8)] ∧
      (runningRecord buildItem 2).ID = buildResourceDone.label "kubeserver/job-id" ∧
      ∀ e ∈ [(buildId, runningRecord buildItem 2), (lintId, runningRecord lintItem 8)],
        matchesJob e.2 buildResourceDone = true → e = (buildId, runningRecord buildItem 2)) ∧
     ∀ e ∈ UpdateFunc [(buildId, runningRecord buildItem 2), (lintId, runningRecord lintItem 8)]
        [(lintId, runningRecord lintItem 8), (buildId, runningRecord buildItem 2)]
        buildResourceDone,
      e.2.ID ≠ buildResourceDone.label "kubeserver/job-id") :=
  ⟨⟨⟨by decide, by decide, rfl, by decide, by decide, by decide⟩,
    ((update_success_removes_first_match
      [(buildId, runningRecord buildItem 2), (cloneId, runningRecord cloneItem 6)]
      [(cloneId, runningRecord cloneItem 6), (buildId, runningRecord buildItem 2)]
      buildResourceDone (by decide) (by decide)).1 [] [(buildId, runningRecord buildItem 2)]
      cloneId (runningRecord cloneItem 6) rfl (by decide) (by decide)).2.2
      (by decide) |>.1,
    by decide⟩,
   ⟨⟨by decide, by decide, by decide, by decide, by decide⟩,
    ((update_success_removes_first_match
      [(buildId, runningRecord buildItem 2), (lintId, runningRecord lintItem 8)]
      [(lintId, runningRecord lintItem 8), (buildId, runningRecord buildItem 2)]
      buildResourceDone (by decide) (by decide)).2.2 buildId (runningRecord buildItem 2)
      (by decide) (by decide) (by decide)).2.1⟩⟩

/-- C8: in every state reachable from the empty queue and empty table, no id of a record
of the `PendingJobs` snapshot is the id of a record of the `RunningJobs` snapshot, nor a
key of the in-flight table. -/
theorem status_tables_disjoint (ns : String) (evs : List Event) (s : System)
    (order : List (String × JobInfo))
    (hrun : run (initial ns) evs = some s)
    (ho : order.Perm s.running) :
    ∀ p ∈ PendingJobs s.pq,
      (∀ r ∈ RunningJobs order, p.ID ≠ r.ID) ∧ (∀ e ∈ s.running, p.ID ≠ e.1) := by
  obtain ⟨_, i2, _, i4, i5⟩ := run_Inv evs _ _ (Inv_initial ns) hrun
  intro p hp
  have hq : p.ID ∈ queuedIds s.pq := by
    obtain ⟨it, hit, rfl⟩ := List.mem_map.mp hp
    exact List.mem_map.mpr ⟨it, hit, rfl⟩
  have hkey : ∀ e ∈ s.running, p.ID ≠ e.1 := by
    intro e he h
    exact (i4 e he).2.1 (h ▸ hq)
  refine ⟨?_, hkey⟩
  intro r hr h
  obtain ⟨e, he, rfl⟩ := List.mem_map.mp hr
  have he1 := ho.subset he
  rcases (i4 e he1).2.2 with h1 | h1
  · exact hkey e he1 (h.trans h1)
  · exact i5 _ (i2 _ hq) (h.trans h1)

/-- Witness of C8: one job queued, one job tracked. -/
theorem status_tables_disjoint_witness :
    (run (initial "default") mixedTrace = some mixedState ∧
      List.Perm mixedState.running mixedState.running) ∧
    ∀ p ∈ PendingJobs mixedState.pq,
      (∀ r ∈ RunningJobs mixedState.running, p.ID ≠ r.ID) ∧
      (∀ e ∈ mixedState.running, p.ID ≠ e.1) :=
  ⟨⟨by decide, List.Perm.refl _⟩,
   status_tables_disjoint "default" mixedTrace mixedState mixedState.running (by decide)
     (List.Perm.refl _)⟩

/-- C10 fails on the code: a dispatch failure that settles after a notification removed
the item's record stores the zero-valued record, whose ID is empty, under the item's id,
and `RunningJobs` returns it. -/
theorem late_failure_stores_zero_record :
    (run (initial "default") lateFailureTrace).map (fun s => s.running) =
      some [(buildId, { JobInfo.zeroValue with
        Status := JobStatus.Failed, ErrorMsg := "connection refused", FinishedAt := some 3 })] ∧
    (run (initial "default") lateFailureTrace).map
      (fun s => (RunningJobs s.running).map fun r => r.ID) = some [""] := by
  constructor <;> decide

end Kubeserver
